import Mathlib

/-!
Verification of the videoshuffle signaling server core (src/index.js).

The server keeps a process-wide table of sessions keyed by a client-supplied
code.  Each session maps participant ids (the per-connection uuid `ws.id`) to
a record holding the display name and the connection handle, plus a link map
produced by the last shuffle and an optional recurring-timer handle.

JS objects are modelled as insertion-ordered association lists; `objGet`,
`objSet` and `objDel` model property read, property write (overwrite in place
or append) and `delete`.  JS property access coerces an `undefined` key to
the string "undefined"; `jsKey` models that coercion.  Machine randomness
(`Math.floor(Math.random() * (i + 1))`) is modelled by an arbitrary list of
naturals reduced modulo `i + 1`.  Timers (`setInterval` / `setTimeout`) are
modelled as sets of live handles carrying the session code their callback
closed over; firing a handle is an explicit event.  `ws.send` silently drops
a frame when the socket's readyState is not OPEN (ws `sendAfterClose` without
callback), which `sendTo` models.
-/

namespace VideoShuffle

/-- Property read on a JS object modelled as an association list
(first occurrence wins, as JS keys are unique). -/
def objGet {κ : Type} [DecidableEq κ] {α : Type} (k : κ) : List (κ × α) → Option α
  | [] => none
  | (k', v) :: rest => if k = k' then some v else objGet k rest

/-- Property write on a JS object: overwrite in place if the key exists,
otherwise append (JS insertion order). -/
def objSet {κ : Type} [DecidableEq κ] {α : Type} (k : κ) (v : α) :
    List (κ × α) → List (κ × α)
  | [] => [(k, v)]
  | (k', v') :: rest => if k' = k then (k, v) :: rest else (k', v') :: objSet k v rest

/-- JS `delete obj[k]`: removes the (unique) entry with key `k`. -/
def objDel {κ : Type} [DecidableEq κ] {α : Type} (k : κ) :
    List (κ × α) → List (κ × α)
  | [] => []
  | (k', v') :: rest => if k' = k then rest else (k', v') :: objDel k rest

/-- JS property-key coercion: `obj[undefined]` reads property "undefined". -/
def jsKey : Option String → String
  | none => "undefined"
  | some s => s

/-- A registered participant: display name (`participantName`, possibly
undefined in a malformed join) and its connection handle (`socket: ws`),
modelled by the connection's id. -/
structure Participant where
  name : Option String
  socket : String
deriving Repr, DecidableEq

/-- A session (src/index.js lines 57-61): participant map, link map from the
last shuffle, and the recurring-timer handle (`timer: null` when absent). -/
structure Session where
  participants : List (String × Participant)
  links : List (String × String)
  timer : Option Nat
deriving Repr, DecidableEq

/-- Connection-side state: `ws.sessionCode` (unset before the first join) and
whether readyState is OPEN. -/
structure Conn where
  sessionCode : Option String
  isOpen : Bool
deriving Repr, DecidableEq

/-- The process-wide server state: the `sessions` table, the connection table,
the live `setInterval` handles and pending `setTimeout` handles (each carrying
the session code its callback closed over), and a fresh-handle counter. -/
structure ServerState where
  sessions : List (String × Session)
  conns : List (String × Conn)
  intervals : List (Nat × String)
  timeouts : List (Nat × String)
  nextTimer : Nat
deriving Repr, DecidableEq

/-- Outbound messages (the `type` discriminator plus payload fields). -/
inductive OutMsg where
  | participantListUpdate (names : List (Option String)) : OutMsg
  | shuffle (partnerId : String) (partnerName : Option String) (polite : Bool) : OutMsg
  | shuffleCountdown (duration : Nat) : OutMsg
  | webrtcSignal (fromId : String) (signal : String) : OutMsg
deriving Repr, DecidableEq

/-- Payload of a `joinSession` message; either field may be missing. -/
structure JoinPayload where
  sessionCode : Option String
  participantName : Option String
deriving Repr, DecidableEq

/-- Payload of a `webrtc-signal` message (`to` and `signal` in the source);
the signal itself is opaque. -/
structure SignalPayload where
  toId : Option String
  signal : String
deriving Repr, DecidableEq

/-- A parsed inbound message.  `payload` is `none` when the `payload` field is
absent (destructuring it then throws).  `other` is any unknown `type`. -/
inductive ClientMsg where
  | joinSession (payload : Option JoinPayload) : ClientMsg
  | webrtcSignal (payload : Option SignalPayload) : ClientMsg
  | other (ty : String) : ClientMsg
deriving Repr, DecidableEq

/-- Lexicographic comparison of character sequences, as JS `<`/`>` compare
strings (code-unit-wise; identical to code-point order on the ASCII ids the
server generates). -/
def ltChars : List Char → List Char → Bool
  | [], [] => false
  | [], _ :: _ => true
  | _ :: _, [] => false
  | c1 :: t1, c2 :: t2 =>
    if c1.toNat < c2.toNat then true
    else if c2.toNat < c1.toNat then false
    else ltChars t1 t2

/-- Line 144: `const polite = fromId > toId` - JS lexicographic string
comparison of the two participant ids of the directed edge, true when the
`from` side is the larger identity. -/
def politeFlag (fromId toId : String) : Bool :=
  ltChars toId.data fromId.data

/-- Swap of two positions of a list (the destructuring swap on line 126). -/
def swapL {α : Type} (l : List α) (i j : Nat) : List α :=
  match l.get? i, l.get? j with
  | some a, some b => (l.set i b).set j a
  | _, _ => l

/-- The Fisher-Yates loop of lines 124-127: index `i` counts down to 1, each
step swapping position `i` with a random position in `[0, i]` (the random
draw is modelled by the next entry of `js` reduced mod `i + 1`). -/
def fyLoop {α : Type} (arr : List α) (js : List Nat) : Nat → List α
  | 0 => arr
  | i + 1 => fyLoop (swapL arr (i + 1) (js.headD 0 % (i + 2))) js.tail i

/-- Fisher-Yates shuffle of lines 124-127 over the whole array. -/
def fisherYates {α : Type} (arr : List α) (js : List Nat) : List α :=
  fyLoop arr js (arr.length - 1)

/-- Lines 129-134: the link map over a permuted id sequence -
`newLinks[ids[i]] = ids[(i + 1) % ids.length]`. -/
def mkLinks (ids : List String) : List (String × String) :=
  (List.range ids.length).map fun i =>
    (ids.getD i "", ids.getD ((i + 1) % ids.length) "")

/-- One hop along the link map (assoc lookup; identity off the key set). -/
def stepF (links : List (String × String)) (x : String) : String :=
  (objGet x links).getD x

/-- `k` hops along the link map. -/
def followLinks (links : List (String × String)) : Nat → String → String
  | 0, x => x
  | k + 1, x => followLinks links k (stepF links x)

/-- Whether a connection's readyState is OPEN. -/
def connOpen (st : ServerState) (cid : String) : Bool :=
  ((objGet cid st.conns).map Conn.isOpen).getD false

/-- `socket.send`: delivers exactly one message when readyState is OPEN and
silently drops it otherwise (ws `sendAfterClose` without a callback). -/
def sendTo (st : ServerState) (cid : String) (m : OutMsg) : List (String × OutMsg) :=
  if connOpen st cid then [(cid, m)] else []

/-- Lines 108-117: send a message to every participant of a session whose
socket is OPEN; a missing session broadcasts nothing. -/
def broadcastToSession (st : ServerState) (code : String) (m : OutMsg) :
    List (String × OutMsg) :=
  match objGet code st.sessions with
  | none => []
  | some sess => sess.participants.foldr
      (fun p acc => sendTo st p.2.socket m ++ acc) []

/-- Lines 119-151, `performShuffle`: permute the current participant ids,
replace the session's link map wholesale with the cyclic assignment, and send
each participant (whose socket is OPEN) its partner id, partner name and
polite flag.  A missing session is a no-op. -/
def performShuffle (st : ServerState) (code : String) (js : List Nat) :
    ServerState × List (String × OutMsg) :=
  match objGet code st.sessions with
  | none => (st, [])
  | some sess =>
    let perm := fisherYates (sess.participants.map Prod.fst) js
    let newLinks := mkLinks perm
    let st1 : ServerState :=
      { st with sessions := objSet code { sess with links := newLinks } st.sessions }
    let msgs := newLinks.foldr
      (fun ft acc =>
        match objGet ft.1 sess.participants, objGet ft.2 sess.participants with
        | some pFrom, some pTo =>
          sendTo st pFrom.socket (OutMsg.shuffle ft.2 pTo.name (politeFlag ft.1 ft.2)) ++ acc
        | _, _ => acc) []
    (st1, msgs)

/-- Lines 157-161: clear the session's recurring timer if one is set. -/
def clearTimer (st : ServerState) (code : String) : ServerState :=
  match objGet code st.sessions with
  | none => st
  | some sess =>
    match sess.timer with
    | none => st
    | some t =>
      { st with
        sessions := objSet code { sess with timer := none } st.sessions,
        intervals := st.intervals.filter (fun p => p.1 != t) }

/-- Lines 166-172: start the recurring timer when the session currently has
more than 2 participants. -/
def startTimer (st : ServerState) (code : String) : ServerState :=
  match objGet code st.sessions with
  | none => st
  | some sess =>
    if 2 < sess.participants.length then
      { st with
        sessions := objSet code { sess with timer := some st.nextTimer } st.sessions,
        intervals := (st.nextTimer, code) :: st.intervals,
        nextTimer := st.nextTimer + 1 }
    else st

/-- Lines 153-173, `initiateShuffleCycle`: cancel any outstanding recurring
timer, shuffle immediately, then start a recurring timer iff the session has
more than 2 participants. -/
def initiateShuffleCycle (st : ServerState) (code : String) (js : List Nat) :
    ServerState × List (String × OutMsg) :=
  match objGet code st.sessions with
  | none => (st, [])
  | some _ =>
    let r := performShuffle (clearTimer st code) code js
    (startTimer r.1 code, r.2)

/-- Lines 56-63: the session the joining participant ends up in - the
existing session under `key` (or a fresh one), with the participant inserted
under its connection id (`name: participantName, socket: ws`). -/
def joinSess1 (st : ServerState) (key cid : String) (nameOpt : Option String) :
    Session :=
  { (objGet key st.sessions).getD { participants := [], links := [], timer := none } with
    participants := objSet cid { name := nameOpt, socket := cid }
      ((objGet key st.sessions).getD
        { participants := [], links := [], timer := none }).participants }

/-- Lines 56-64: the state mutations of a join - the session table update and
`ws.sessionCode = sessionCode` (the raw, possibly missing, value). -/
def joinRegister (st : ServerState) (cid : String)
    (codeOpt nameOpt : Option String) : ServerState :=
  { st with
    sessions := objSet (jsKey codeOpt) (joinSess1 st (jsKey codeOpt) cid nameOpt)
      st.sessions,
    conns := match objGet cid st.conns with
      | some c => objSet cid { c with sessionCode := codeOpt } st.conns
      | none => st.conns }

/-- Lines 67-68: the `participantListUpdate` broadcast after a join. -/
def joinBroadcast (st : ServerState) (cid : String)
    (codeOpt nameOpt : Option String) : List (String × OutMsg) :=
  broadcastToSession (joinRegister st cid codeOpt nameOpt) (jsKey codeOpt)
    (OutMsg.participantListUpdate
      ((joinSess1 st (jsKey codeOpt) cid nameOpt).participants.map
        (fun p => p.2.name)))

/-- Lines 54-73, the `joinSession` handler: lazily create the session, insert
the participant (key `ws.id`, socket `ws`), record the raw session-code value
on the connection, broadcast the updated name list, and trigger a shuffle
cycle when the session now has at least 2 participants.  A missing
`sessionCode` field reaches the table through `jsKey` as the key
"undefined". -/
def joinOp (st : ServerState) (cid : String) (codeOpt nameOpt : Option String)
    (js : List Nat) : ServerState × List (String × OutMsg) :=
  if 2 ≤ (joinSess1 st (jsKey codeOpt) cid nameOpt).participants.length then
    ((initiateShuffleCycle (joinRegister st cid codeOpt nameOpt) (jsKey codeOpt) js).1,
     joinBroadcast st cid codeOpt nameOpt ++
       (initiateShuffleCycle (joinRegister st cid codeOpt nameOpt) (jsKey codeOpt) js).2)
  else (joinRegister st cid codeOpt nameOpt, joinBroadcast st cid codeOpt nameOpt)

/-- Lines 74-80, the `webrtc-signal` handler:
`sessions[ws.sessionCode]?.participants[to]?.socket`; when the recipient
exists its socket is sent the payload tagged with the sender's id (delivery
itself still requires the socket to be OPEN, see `sendTo`).  No state is
mutated on any path. -/
def relayOp (st : ServerState) (cid : String) (toOpt : Option String)
    (signal : String) : ServerState × List (String × OutMsg) :=
  let senderCode := (objGet cid st.conns).bind Conn.sessionCode
  match objGet (jsKey senderCode) st.sessions with
  | none => (st, [])
  | some sess =>
    match objGet (jsKey toOpt) sess.participants with
    | none => (st, [])
    | some p => (st, sendTo st p.socket (OutMsg.webrtcSignal cid signal))

/-- The for-in loop of lines 85-104: first session containing the id. -/
def closeFind (cid : String) : List (String × Session) → Option (String × Session)
  | [] => none
  | (code, sess) :: rest =>
    if (objGet cid sess.participants).isSome then some (code, sess)
    else closeFind cid rest

/-- The transport marking the socket closed (readyState CLOSED) as the close
event fires. -/
def closeConns (st : ServerState) (cid : String) : ServerState :=
  { st with conns := match objGet cid st.conns with
      | some c => objSet cid { c with isOpen := false } st.conns
      | none => st.conns }

/-- Lines 90-93: teardown of a session whose participant map became empty -
its recurring timer is cleared and the session entry deleted. -/
def closeTeardown (st : ServerState) (cid : String) (cs : String × Session) :
    ServerState :=
  { closeConns st cid with
    sessions := objDel cs.1 (closeConns st cid).sessions,
    intervals := match cs.2.timer with
      | some t => (closeConns st cid).intervals.filter (fun p => p.1 != t)
      | none => (closeConns st cid).intervals }

/-- Line 87: the state after deleting the departing participant from the
(non-empty-remainder) session. -/
def closeShrunk (st : ServerState) (cid : String) (cs : String × Session) :
    ServerState :=
  { closeConns st cid with
    sessions := objSet cs.1
      { cs.2 with participants := objDel cid cs.2.participants }
      (closeConns st cid).sessions }

/-- Lines 96-97: the `participantListUpdate` broadcast to the remaining
participants. -/
def closeBroadcast (st : ServerState) (cid : String) (cs : String × Session) :
    List (String × OutMsg) :=
  broadcastToSession (closeShrunk st cid cs) cs.1
    (OutMsg.participantListUpdate
      ((objDel cid cs.2.participants).map (fun p => p.2.name)))

/-- Lines 84-105, the close handler: mark the socket closed, remove the
participant from the first session containing it; if the session becomes
empty, clear its recurring timer and delete it, otherwise broadcast the
updated name list and re-trigger a shuffle cycle when more than one
participant remains. -/
def closeOp (st : ServerState) (cid : String) (js : List Nat) :
    ServerState × List (String × OutMsg) :=
  match closeFind cid (closeConns st cid).sessions with
  | none => (closeConns st cid, [])
  | some cs =>
    if (objDel cid cs.2.participants).length = 0 then
      (closeTeardown st cid cs, [])
    else
      if 1 < (objDel cid cs.2.participants).length then
        ((initiateShuffleCycle (closeShrunk st cid cs) cs.1 js).1,
         closeBroadcast st cid cs ++
           (initiateShuffleCycle (closeShrunk st cid cs) cs.1 js).2)
      else (closeShrunk st cid cs, closeBroadcast st cid cs)

/-- Line 46-48: a new connection gets a fresh uuid; ids are unique, so a
connect with an id already in the table is a no-op of the model. -/
def connectOp (st : ServerState) (cid : String) : ServerState :=
  match objGet cid st.conns with
  | some _ => st
  | none => { st with conns := objSet cid { sessionCode := none, isOpen := true } st.conns }

/-- Lines 50-82, the message handler.  `none` input models a frame whose data
is not valid JSON: `JSON.parse` on line 51 is unguarded, so the exception
escapes the handler (result `none` = uncaught exception, fatal to the
process).  Destructuring a missing `payload` likewise throws.  An unknown
`type` falls through the switch. -/
def handleMessage (st : ServerState) (cid : String) (raw : Option ClientMsg)
    (js : List Nat) : Option (ServerState × List (String × OutMsg)) :=
  match raw with
  | none => none
  | some (ClientMsg.joinSession none) => none
  | some (ClientMsg.joinSession (some p)) =>
      some (joinOp st cid p.sessionCode p.participantName js)
  | some (ClientMsg.webrtcSignal none) => none
  | some (ClientMsg.webrtcSignal (some p)) =>
      some (relayOp st cid p.toId p.signal)
  | some (ClientMsg.other _) => some (st, [])

/-- External events driving the server: a new connection, an inbound message
(with the random draws any triggered shuffle will consume), a transport-level
close, a recurring-interval firing and a pending delayed-shuffle firing. -/
inductive Event where
  | connect (cid : String) : Event
  | message (cid : String) (raw : Option ClientMsg) (js : List Nat) : Event
  | closeEv (cid : String) (js : List Nat) : Event
  | intervalFire (tid : Nat) : Event
  | timeoutFire (tid : Nat) (js : List Nat) : Event
deriving Repr, DecidableEq

/-- Lines 168-171, the recurring-timer callback: broadcast a 10 second
shuffle-countdown, then schedule the delayed shuffle (`setTimeout(...,
3000)` modelled as a fresh pending timeout handle).  A handle that is no
longer live does nothing. -/
def intervalFireOp (st : ServerState) (tid : Nat) : ServerState × List (String × OutMsg) :=
  match objGet tid st.intervals with
  | none => (st, [])
  | some code =>
    ({ st with
        timeouts := (st.nextTimer, code) :: st.timeouts,
        nextTimer := st.nextTimer + 1 },
     broadcastToSession st code (OutMsg.shuffleCountdown 10))

/-- Line 170: the delayed shuffle fires, consuming its pending handle. -/
def timeoutFireOp (st : ServerState) (tid : Nat) (js : List Nat) :
    ServerState × List (String × OutMsg) :=
  match objGet tid st.timeouts with
  | none => (st, [])
  | some code =>
    performShuffle { st with timeouts := st.timeouts.filter (fun p => p.1 != tid) } code js

/-- One event-loop step.  Messages and close events are only delivered for an
OPEN connection (the transport surfaces exactly one close per connection).
`none` means the step crashed the process (unguarded `JSON.parse` or
destructuring of a missing payload). -/
def step (st : ServerState) (e : Event) : Option (ServerState × List (String × OutMsg)) :=
  match e with
  | Event.connect cid => some (connectOp st cid, [])
  | Event.message cid raw js =>
      if connOpen st cid then handleMessage st cid raw js else some (st, [])
  | Event.closeEv cid js =>
      if connOpen st cid then some (closeOp st cid js) else some (st, [])
  | Event.intervalFire tid => some (intervalFireOp st tid)
  | Event.timeoutFire tid js => some (timeoutFireOp st tid js)

/-- The state at process start: everything empty. -/
def initState : ServerState :=
  { sessions := [], conns := [], intervals := [], timeouts := [], nextTimer := 0 }

/-- States reachable from process start by non-crashing event-loop steps. -/
inductive Reachable : ServerState → Prop
  | init : Reachable initState
  | next {st : ServerState} {e : Event} {st' : ServerState}
      {out : List (String × OutMsg)} :
      Reachable st → step st e = some (st', out) → Reachable st'

/-- Run a list of events from a given state, stopping on a crash. -/
def runFrom (st : ServerState) : List Event → Option ServerState
  | [] => some st
  | e :: rest =>
    match step st e with
    | none => none
    | some r => runFrom r.1 rest

/-- Run a list of events from process start. -/
def runEvents (evs : List Event) : Option ServerState :=
  runFrom initState evs

/-- Well-formedness of an event relative to a state, for the restricted
transition system of claim C8: a join must carry both fields and come from a
connection that has not joined before (its recorded session code is unset);
unparseable frames and missing payloads are excluded (they crash anyway). -/
def goodEventB (st : ServerState) : Event → Bool
  | Event.message cid raw _ =>
    match raw with
    | some (ClientMsg.joinSession (some p)) =>
        p.sessionCode.isSome && p.participantName.isSome &&
        ((objGet cid st.conns).bind Conn.sessionCode) == none
    | some (ClientMsg.joinSession none) => false
    | none => false
    | _ => true
  | _ => true

/-- States reachable when every join is well-formed and each connection joins
at most once. -/
inductive ReachableW : ServerState → Prop
  | init : ReachableW initState
  | next {st : ServerState} {e : Event} {st' : ServerState}
      {out : List (String × OutMsg)} :
      ReachableW st → goodEventB st e = true → step st e = some (st', out) →
      ReachableW st'

/-- The link map of session `code` after one `performShuffle` call. -/
def linksAfter (st : ServerState) (code : String) (js : List Nat) :
    List (String × String) :=
  ((objGet code (performShuffle st code js).1.sessions).map Session.links).getD []

/-- A well-formed join event, as sent by the client. -/
def joinEv (cid code name : String) : Event :=
  Event.message cid
    (some (ClientMsg.joinSession
      (some { sessionCode := some code, participantName := some name }))) []

/-- Three connections joining session "X". -/
def trace3 : List Event :=
  [Event.connect "a", Event.connect "b", Event.connect "c",
   joinEv "a" "X" "na", joinEv "b" "X" "nb", joinEv "c" "X" "nc"]

/-- The session contents of "X" after `trace3`. -/
def sess3X : Session :=
  { participants := [("a", { name := some "na", socket := "a" }),
                     ("b", { name := some "nb", socket := "b" }),
                     ("c", { name := some "nc", socket := "c" })],
    links := [("b", "c"), ("c", "a"), ("a", "b")],
    timer := some 0 }

/-- The state after `trace3`: a three-participant session with a live
recurring timer. -/
def st3 : ServerState :=
  { sessions := [("X", sess3X)],
    conns := [("a", { sessionCode := some "X", isOpen := true }),
              ("b", { sessionCode := some "X", isOpen := true }),
              ("c", { sessionCode := some "X", isOpen := true })],
    intervals := [(0, "X")],
    timeouts := [],
    nextTimer := 1 }

/-- A one-participant session, as produced by a single connect-and-join. -/
def st1p : ServerState :=
  { sessions := [("X",
      { participants := [("a", { name := some "na", socket := "a" })],
        links := [],
        timer := none })],
    conns := [("a", { sessionCode := some "X", isOpen := true })],
    intervals := [],
    timeouts := [],
    nextTimer := 0 }

/-- Session teardown after a recurring-timer firing: three participants join
"X", the interval fires (scheduling the delayed shuffle as timeout 1), then
all three disconnect, destroying the session. -/
def traceTeardown : List Event :=
  trace3 ++ [Event.intervalFire 0,
    Event.closeEv "a" [], Event.closeEv "b" [], Event.closeEv "c" []]

/-- After the teardown, two fresh connections re-create session "X" under the
same code while the stale delayed-shuffle timeout is still pending. -/
def traceRejoin : List Event :=
  traceTeardown ++ [Event.connect "d", Event.connect "e",
    joinEv "d" "X" "nd", joinEv "e" "X" "ne"]

/-- One connection joining two different sessions without disconnecting. -/
def traceDoubleJoin : List Event :=
  [Event.connect "a",
   Event.message "a" (some (ClientMsg.joinSession
     (some { sessionCode := some "s1", participantName := some "n" }))) [],
   Event.message "a" (some (ClientMsg.joinSession
     (some { sessionCode := some "s2", participantName := some "n" }))) []]

/-- A join whose payload has no `sessionCode` field, followed by a second
connection that never joins anything. -/
def traceUndefinedKey : List Event :=
  [Event.connect "a",
   Event.message "a" (some (ClientMsg.joinSession
     (some { sessionCode := none, participantName := some "n" }))) [],
   Event.connect "b"]

/-- Three participants join "X", then two of them disconnect, leaving a
sole participant. -/
def traceSolo : List Event :=
  trace3 ++ [Event.closeEv "b" [], Event.closeEv "c" []]

/-- The session "X" after `traceSolo`: one participant left. -/
def sessSolo : Session :=
  { participants := [("a", { name := some "na", socket := "a" })],
    links := [("c", "a"), ("a", "c")],
    timer := none }

/-- The state after `traceSolo`. -/
def stSolo : ServerState :=
  { sessions := [("X", sessSolo)],
    conns := [("a", { sessionCode := some "X", isOpen := true }),
              ("b", { sessionCode := some "X", isOpen := false }),
              ("c", { sessionCode := some "X", isOpen := false })],
    intervals := [],
    timeouts := [],
    nextTimer := 1 }

/-- The state after the last participant of "X" also disconnects. -/
def stEmpty : ServerState :=
  { sessions := [],
    conns := [("a", { sessionCode := some "X", isOpen := false }),
              ("b", { sessionCode := some "X", isOpen := false }),
              ("c", { sessionCode := some "X", isOpen := false })],
    intervals := [],
    timeouts := [],
    nextTimer := 1 }

/-- Well-formedness of the session table: session codes are distinct keys and
each session's participant ids are distinct keys (JS object keys). -/
def sessKeysNodup (l : List (String × Session)) : Prop :=
  (l.map Prod.fst).Nodup ∧ ∀ cs ∈ l, (cs.2.participants.map Prod.fst).Nodup

/-- Consistency of the live `setInterval` handles with the sessions' `timer`
fields: a recorded timer is live; a live handle belongs to the session that
records it; handles are unambiguous; and handles are below the freshness
counter. -/
def timerLink (l : List (String × Session)) (iv : List (Nat × String))
    (nt : Nat) : Prop :=
  (∀ cs ∈ l, ∀ t, cs.2.timer = some t → (t, cs.1) ∈ iv) ∧
  (∀ p ∈ iv, ∃ sess, objGet p.2 l = some sess ∧ sess.timer = some p.1) ∧
  (∀ p ∈ iv, ∀ q ∈ iv, p.1 = q.1 → p.2 = q.2) ∧
  (∀ p ∈ iv, p.1 < nt)

/-- The scheduler contract for one session: a 2-participant session has no
recurring timer, a session with more than 2 participants has one. -/
def CountTimerAt (cs : String × Session) : Prop :=
  (cs.2.participants.length = 2 → cs.2.timer = none) ∧
  (2 < cs.2.participants.length → cs.2.timer.isSome = true)

/-- The scheduler contract for every session of the table. -/
def CountTimer (st : ServerState) : Prop :=
  ∀ cs ∈ st.sessions, CountTimerAt cs

/-- The scheduler contract for every session other than `code` (the session
whose membership is mid-update). -/
def CountTimerExcept (st : ServerState) (code : String) : Prop :=
  ∀ cs ∈ st.sessions, cs.1 ≠ code → CountTimerAt cs

/-- The global invariant of reachable server states. -/
def GInv (st : ServerState) : Prop :=
  sessKeysNodup st.sessions ∧
  timerLink st.sessions st.intervals st.nextTimer ∧
  CountTimer st

/-- The session-membership invariant of claim C8: every participant key of
every session is the id of a connection whose recorded session code is that
session's code, and the participant's stored socket is its own key. -/
def MemberInv (st : ServerState) : Prop :=
  ∀ code sess pid p, objGet code st.sessions = some sess →
    objGet pid sess.participants = some p →
    ∃ c, objGet pid st.conns = some c ∧ c.sessionCode = some code ∧
      p.socket = pid

/-- Run a list of events from a given state, requiring each event to be
well-formed for the restricted transition system of claim C8 and stopping on
a crash. -/
def runFromChecked (st : ServerState) : List Event → Option ServerState
  | [] => some st
  | e :: rest =>
    if goodEventB st e then
      match step st e with
      | none => none
      | some r => runFromChecked r.1 rest
    else none

/-- Two connections joining session "X" - a run of well-formed events. -/
def traceW : List Event :=
  [Event.connect "a", joinEv "a" "X" "na", Event.connect "b", joinEv "b" "X" "nb"]

/-- The contents of session "X" after `traceW`. -/
def sessWX : Session :=
  { participants := [("a", { name := some "na", socket := "a" }),
                     ("b", { name := some "nb", socket := "b" })],
    links := [("b", "a"), ("a", "b")],
    timer := none }

/-- The participant entry stored under key "a" after `traceW`. -/
def pWa : Participant := { name := some "na", socket := "a" }

/-- The state after `traceW`: a two-participant session without a recurring
timer. -/
def stW : ServerState :=
  { sessions := [("X", sessWX)],
    conns := [("a", { sessionCode := some "X", isOpen := true }),
              ("b", { sessionCode := some "X", isOpen := true })],
    intervals := [],
    timeouts := [],
    nextTimer := 0 }

/-! ### Association-list lemmas -/

theorem objGet_cons {κ α : Type} [DecidableEq κ] (k k1 : κ) (v1 : α)
    (tl : List (κ × α)) :
    objGet k ((k1, v1) :: tl) = if k = k1 then some v1 else objGet k tl := rfl

theorem objSet_cons {κ α : Type} [DecidableEq κ] (k : κ) (v : α) (k1 : κ) (v1 : α)
    (tl : List (κ × α)) :
    objSet k v ((k1, v1) :: tl) =
      if k1 = k then (k, v) :: tl else (k1, v1) :: objSet k v tl := rfl

theorem objDel_cons {κ α : Type} [DecidableEq κ] (k k1 : κ) (v1 : α)
    (tl : List (κ × α)) :
    objDel k ((k1, v1) :: tl) = if k1 = k then tl else (k1, v1) :: objDel k tl := rfl

theorem objGet_objSet_self {κ α : Type} [DecidableEq κ] (k : κ) (v : α)
    (l : List (κ × α)) : objGet k (objSet k v l) = some v := by
  induction l with
  | nil => simp [objGet, objSet]
  | cons hd tl ih =>
    obtain ⟨k1, v1⟩ := hd
    rw [objSet_cons]
    by_cases h : k1 = k
    · rw [if_pos h, objGet_cons, if_pos rfl]
    · rw [if_neg h, objGet_cons, if_neg (fun hh => h hh.symm)]
      exact ih

theorem objGet_objSet_ne {κ α : Type} [DecidableEq κ] {k k' : κ} (v : α)
    (l : List (κ × α)) (h : k' ≠ k) : objGet k' (objSet k v l) = objGet k' l := by
  induction l with
  | nil => simp [objGet, objSet, h]
  | cons hd tl ih =>
    obtain ⟨k1, v1⟩ := hd
    rw [objSet_cons]
    by_cases hk : k1 = k
    · rw [if_pos hk, objGet_cons, objGet_cons, if_neg (hk ▸ h)]
      rw [if_neg (fun hh => h (hh.trans hk))]
    · rw [if_neg hk, objGet_cons, objGet_cons]
      by_cases hk2 : k' = k1
      · rw [if_pos hk2, if_pos hk2]
      · rw [if_neg hk2, if_neg hk2]
        exact ih

theorem objGet_objDel_ne {κ α : Type} [DecidableEq κ] {k k' : κ}
    (l : List (κ × α)) (h : k' ≠ k) : objGet k' (objDel k l) = objGet k' l := by
  induction l with
  | nil => simp [objDel]
  | cons hd tl ih =>
    obtain ⟨k1, v1⟩ := hd
    rw [objDel_cons]
    by_cases hk : k1 = k
    · rw [if_pos hk, objGet_cons, if_neg (fun hh => h (hh.trans hk))]
    · rw [if_neg hk, objGet_cons, objGet_cons]
      by_cases hk2 : k' = k1
      · rw [if_pos hk2, if_pos hk2]
      · rw [if_neg hk2, if_neg hk2]
        exact ih

theorem objGet_eq_none_iff {κ α : Type} [DecidableEq κ] {k : κ}
    {l : List (κ × α)} : objGet k l = none ↔ ∀ x ∈ l, x.1 ≠ k := by
  induction l with
  | nil => simp [objGet]
  | cons hd tl ih =>
    obtain ⟨k1, v1⟩ := hd
    rw [objGet_cons]
    by_cases hk : k = k1
    · rw [if_pos hk]
      simp only [List.mem_cons]
      constructor
      · intro h
        exact absurd h (by simp)
      · intro h
        exact absurd hk.symm (h (k1, v1) (Or.inl rfl))
    · rw [if_neg hk]
      rw [ih]
      simp only [List.mem_cons]
      constructor
      · rintro h x (rfl | hx)
        · exact fun hh => hk hh.symm
        · exact h x hx
      · intro h x hx
        exact h x (Or.inr hx)

theorem objGet_objDel_self {κ α : Type} [DecidableEq κ] {k : κ}
    {l : List (κ × α)} (hnd : (l.map Prod.fst).Nodup) :
    objGet k (objDel k l) = none := by
  induction l with
  | nil => simp [objDel, objGet]
  | cons hd tl ih =>
    obtain ⟨k1, v1⟩ := hd
    rw [List.map_cons, List.nodup_cons] at hnd
    rw [objDel_cons]
    by_cases hk : k1 = k
    · rw [if_pos hk]
      rw [objGet_eq_none_iff]
      intro x hx hxk
      have hmem : x.1 ∈ tl.map Prod.fst := List.mem_map_of_mem Prod.fst hx
      rw [hxk, ← hk] at hmem
      exact hnd.1 hmem
    · rw [if_neg hk, objGet_cons, if_neg (fun hh => hk hh.symm)]
      exact ih hnd.2

theorem objGet_eq_some_mem {κ α : Type} [DecidableEq κ] {k : κ} {v : α}
    {l : List (κ × α)} (h : objGet k l = some v) : (k, v) ∈ l := by
  induction l with
  | nil => simp [objGet] at h
  | cons hd tl ih =>
    obtain ⟨k1, v1⟩ := hd
    rw [objGet_cons] at h
    by_cases hk : k = k1
    · rw [if_pos hk] at h
      injection h with h
      rw [hk, h]
      exact List.mem_cons_self _ _
    · rw [if_neg hk] at h
      exact List.mem_cons_of_mem _ (ih h)

theorem mem_keys_of_objGet_isSome {κ α : Type} [DecidableEq κ] {k : κ}
    {l : List (κ × α)} (h : (objGet k l).isSome) : k ∈ l.map Prod.fst := by
  cases hg : objGet k l with
  | none => rw [hg] at h; simp at h
  | some v => exact List.mem_map_of_mem Prod.fst (objGet_eq_some_mem hg)

theorem mem_objSet_iff {κ α : Type} [DecidableEq κ] {k : κ} {v : α}
    {l : List (κ × α)} (hnd : (l.map Prod.fst).Nodup) (x : κ × α) :
    x ∈ objSet k v l ↔ x = (k, v) ∨ (x ∈ l ∧ x.1 ≠ k) := by
  induction l with
  | nil =>
    simp only [objSet, List.mem_singleton, List.not_mem_nil, false_and, or_false]
  | cons hd tl ih =>
    obtain ⟨k1, v1⟩ := hd
    rw [List.map_cons, List.nodup_cons] at hnd
    rw [objSet_cons]
    by_cases hk : k1 = k
    · rw [if_pos hk]
      simp only [List.mem_cons]
      constructor
      · rintro (rfl | hx)
        · exact Or.inl rfl
        · refine Or.inr ⟨Or.inr hx, ?_⟩
          intro hxk
          have hmem : x.1 ∈ tl.map Prod.fst := List.mem_map_of_mem Prod.fst hx
          rw [hxk, ← hk] at hmem
          exact hnd.1 hmem
      · rintro (rfl | ⟨(h1 | h1), h2⟩)
        · exact Or.inl rfl
        · rw [h1] at h2
          exact absurd hk (by simpa using h2)
        · exact Or.inr h1
    · rw [if_neg hk]
      simp only [List.mem_cons, ih hnd.2]
      constructor
      · rintro (rfl | h | ⟨h1, h2⟩)
        · exact Or.inr ⟨Or.inl rfl, fun hh => hk (by simpa using hh)⟩
        · exact Or.inl h
        · exact Or.inr ⟨Or.inr h1, h2⟩
      · rintro (rfl | ⟨(rfl | h1), h2⟩)
        · exact Or.inr (Or.inl rfl)
        · exact Or.inl rfl
        · exact Or.inr (Or.inr ⟨h1, h2⟩)

theorem mem_objDel_iff {κ α : Type} [DecidableEq κ] {k : κ}
    {l : List (κ × α)} (hnd : (l.map Prod.fst).Nodup) (x : κ × α) :
    x ∈ objDel k l ↔ x ∈ l ∧ x.1 ≠ k := by
  induction l with
  | nil => simp [objDel]
  | cons hd tl ih =>
    obtain ⟨k1, v1⟩ := hd
    rw [List.map_cons, List.nodup_cons] at hnd
    rw [objDel_cons]
    by_cases hk : k1 = k
    · rw [if_pos hk]
      simp only [List.mem_cons]
      constructor
      · intro hx
        refine ⟨Or.inr hx, fun hxk => ?_⟩
        have hmem : x.1 ∈ tl.map Prod.fst := List.mem_map_of_mem Prod.fst hx
        rw [hxk, ← hk] at hmem
        exact hnd.1 hmem
      · rintro ⟨(rfl | h1), h2⟩
        · exact absurd hk (by simpa using h2)
        · exact h1
    · rw [if_neg hk]
      simp only [List.mem_cons, ih hnd.2]
      constructor
      · rintro (rfl | ⟨h1, h2⟩)
        · exact ⟨Or.inl rfl, fun hh => hk (by simpa using hh)⟩
        · exact ⟨Or.inr h1, h2⟩
      · rintro ⟨(rfl | h1), h2⟩
        · exact Or.inl rfl
        · exact Or.inr ⟨h1, h2⟩

theorem keys_nodup_objSet {κ α : Type} [DecidableEq κ] (k : κ) (v : α)
    {l : List (κ × α)} (hnd : (l.map Prod.fst).Nodup) :
    ((objSet k v l).map Prod.fst).Nodup := by
  induction l with
  | nil => simp [objSet]
  | cons hd tl ih =>
    obtain ⟨k1, v1⟩ := hd
    rw [List.map_cons, List.nodup_cons] at hnd
    rw [objSet_cons]
    by_cases hk : k1 = k
    · rw [if_pos hk]
      rw [List.map_cons, List.nodup_cons]
      exact ⟨fun hmem => hnd.1 (by rwa [hk]), hnd.2⟩
    · rw [if_neg hk]
      rw [List.map_cons, List.nodup_cons]
      refine ⟨?_, ih hnd.2⟩
      intro hmem
      rcases List.mem_map.1 hmem with ⟨x, hx, hfst⟩
      rcases (mem_objSet_iff hnd.2 x).1 hx with rfl | ⟨hx1, _⟩
      · exact hk hfst.symm
      · exact hnd.1 (hfst ▸ List.mem_map_of_mem Prod.fst hx1)

theorem keys_nodup_objDel {κ α : Type} [DecidableEq κ] (k : κ)
    {l : List (κ × α)} (hnd : (l.map Prod.fst).Nodup) :
    ((objDel k l).map Prod.fst).Nodup := by
  induction l with
  | nil => simp [objDel]
  | cons hd tl ih =>
    obtain ⟨k1, v1⟩ := hd
    rw [List.map_cons, List.nodup_cons] at hnd
    rw [objDel_cons]
    by_cases hk : k1 = k
    · rw [if_pos hk]
      exact hnd.2
    · rw [if_neg hk]
      rw [List.map_cons, List.nodup_cons]
      refine ⟨?_, ih hnd.2⟩
      intro hmem
      rcases List.mem_map.1 hmem with ⟨x, hx, hfst⟩
      exact hnd.1 (hfst ▸ List.mem_map_of_mem Prod.fst ((mem_objDel_iff hnd.2 x).1 hx).1)

theorem length_objDel_of_mem {κ α : Type} [DecidableEq κ] {k : κ} {v : α}
    {l : List (κ × α)} (h : objGet k l = some v) :
    (objDel k l).length + 1 = l.length := by
  induction l with
  | nil => simp [objGet] at h
  | cons hd tl ih =>
    obtain ⟨k1, v1⟩ := hd
    rw [objGet_cons] at h
    rw [objDel_cons]
    by_cases hk : k1 = k
    · rw [if_pos hk]
      simp
    · rw [if_neg hk]
      rw [if_neg (fun hh => hk hh.symm)] at h
      rw [List.length_cons, List.length_cons, ← ih h]

theorem objGet_getElem_of_nodup {α : Type} {ps : List (String × α)}
    (hnd : (ps.map Prod.fst).Nodup) (i : Nat) (h : i < ps.length) :
    objGet ps[i].1 ps = some ps[i].2 := by
  induction ps generalizing i with
  | nil => simp at h
  | cons hd tl ih =>
    obtain ⟨k1, v1⟩ := hd
    rw [List.map_cons, List.nodup_cons] at hnd
    cases i with
    | zero =>
      rw [List.getElem_cons_zero, objGet_cons, if_pos rfl]
    | succ j =>
      have hj : j < tl.length := by simpa using h
      have hmem : tl[j].1 ∈ tl.map Prod.fst :=
        List.mem_map_of_mem Prod.fst (tl.getElem_mem hj)
      have hne : tl[j].1 ≠ k1 := fun hh => hnd.1 (hh ▸ hmem)
      rw [List.getElem_cons_succ, objGet_cons, if_neg hne]
      exact ih hnd.2 j hj

/-! ### The Fisher-Yates output is a permutation of its input -/

theorem cons_set_perm {α : Type} (xs : List α) (j : Nat) (b x : α)
    (h : xs.get? j = some b) : List.Perm (b :: xs.set j x) (x :: xs) := by
  induction xs generalizing j with
  | nil => simp at h
  | cons y ys ih =>
    cases j with
    | zero =>
      rw [List.get?_cons_zero] at h
      injection h with hy
      rw [List.set_cons_zero, hy]
      exact List.Perm.swap x b ys
    | succ m =>
      rw [List.get?_cons_succ] at h
      rw [List.set_cons_succ]
      exact ((List.Perm.swap y b _).trans
        (List.Perm.cons y (ih m h))).trans (List.Perm.swap x y ys)

theorem set_set_perm {α : Type} (l : List α) (i j : Nat) (a b : α)
    (hi : l.get? i = some a) (hj : l.get? j = some b) :
    List.Perm ((l.set i b).set j a) l := by
  induction l generalizing i j with
  | nil => simp at hi
  | cons x xs ih =>
    cases i with
    | zero =>
      rw [List.get?_cons_zero] at hi
      injection hi with hx
      cases j with
      | zero =>
        rw [List.get?_cons_zero] at hj
        injection hj with hx2
        rw [List.set_cons_zero, List.set_cons_zero, hx]
      | succ m =>
        rw [List.get?_cons_succ] at hj
        rw [List.set_cons_zero, List.set_cons_succ, hx]
        exact cons_set_perm xs m b a hj
    | succ n =>
      rw [List.get?_cons_succ] at hi
      cases j with
      | zero =>
        rw [List.get?_cons_zero] at hj
        injection hj with hx2
        rw [List.set_cons_succ, List.set_cons_zero, hx2]
        exact cons_set_perm xs n a b hi
      | succ m =>
        rw [List.get?_cons_succ] at hj
        rw [List.set_cons_succ, List.set_cons_succ]
        exact List.Perm.cons x (ih n m hi hj)

theorem swapL_perm {α : Type} (l : List α) (i j : Nat) :
    List.Perm (swapL l i j) l := by
  unfold swapL
  cases hi : l.get? i with
  | none => exact List.Perm.refl _
  | some a =>
    cases hj : l.get? j with
    | none => exact List.Perm.refl _
    | some b => exact set_set_perm l i j a b hi hj

theorem fyLoop_perm {α : Type} (i : Nat) :
    ∀ (arr : List α) (js : List Nat), List.Perm (fyLoop arr js i) arr := by
  induction i with
  | zero =>
    intro arr js
    exact List.Perm.refl _
  | succ n ih =>
    intro arr js
    exact (ih _ _).trans (swapL_perm arr (n + 1) (js.headD 0 % (n + 2)))

theorem fisherYates_perm {α : Type} (arr : List α) (js : List Nat) :
    List.Perm (fisherYates arr js) arr :=
  fyLoop_perm _ arr js

/-! ### The cyclic link map -/

theorem range_map_getD {α : Type} (l : List α) (d : α) :
    (List.range l.length).map (fun i => l.getD i d) = l := by
  induction l with
  | nil => rfl
  | cons x xs ih =>
    rw [List.length_cons, List.range_succ_eq_map, List.map_cons, List.map_map]
    have hcomp : ∀ i ∈ List.range xs.length,
        ((fun i => (x :: xs).getD i d) ∘ Nat.succ) i = xs.getD i d := by
      intro i _
      rfl
    rw [List.map_congr_left hcomp, ih]
    rfl

theorem mkLinks_length (ids : List String) : (mkLinks ids).length = ids.length := by
  simp [mkLinks]

theorem mkLinks_map_fst (ids : List String) : (mkLinks ids).map Prod.fst = ids := by
  unfold mkLinks
  rw [List.map_map]
  exact range_map_getD ids ""

theorem mkLinks_getElem (ids : List String) (i : Nat)
    (h : i < (mkLinks ids).length) :
    (mkLinks ids)[i] = (ids.getD i "", ids.getD ((i + 1) % ids.length) "") := by
  unfold mkLinks at h ⊢
  rw [List.getElem_map, List.getElem_range]

theorem mkLinks_map_snd (ids : List String) :
    (mkLinks ids).map Prod.snd = ids.rotate 1 := by
  apply List.ext_getElem
  · rw [List.length_map, mkLinks_length, List.length_rotate]
  · intro i h1 h2
    have hmk : i < (mkLinks ids).length := by rwa [List.length_map] at h1
    have hlen : 0 < ids.length := by
      rw [List.length_rotate] at h2
      omega
    have hmod : (i + 1) % ids.length < ids.length := Nat.mod_lt _ hlen
    rw [List.getElem_map, mkLinks_getElem ids i hmk, List.getElem_rotate]
    exact List.getD_eq_getElem ids "" hmod

theorem objGet_mkLinks {ids : List String} (hnd : ids.Nodup) {i : Nat}
    (h : i < ids.length) :
    objGet (ids.getD i "") (mkLinks ids) =
      some (ids.getD ((i + 1) % ids.length) "") := by
  have hmk : i < (mkLinks ids).length := by rw [mkLinks_length]; exact h
  have hkeys : ((mkLinks ids).map Prod.fst).Nodup := by
    rw [mkLinks_map_fst]; exact hnd
  have hg := objGet_getElem_of_nodup hkeys i hmk
  rw [mkLinks_getElem ids i hmk] at hg
  exact hg

theorem stepF_mkLinks {ids : List String} (hnd : ids.Nodup) {i : Nat}
    (h : i < ids.length) :
    stepF (mkLinks ids) (ids.getD i "") = ids.getD ((i + 1) % ids.length) "" := by
  unfold stepF
  rw [objGet_mkLinks hnd h]
  rfl

theorem followLinks_mkLinks {ids : List String} (hnd : ids.Nodup) (k : Nat) :
    ∀ i, i < ids.length →
      followLinks (mkLinks ids) k (ids.getD i "") =
        ids.getD ((i + k) % ids.length) "" := by
  induction k with
  | zero =>
    intro i h
    show ids.getD i "" = _
    rw [Nat.add_zero, Nat.mod_eq_of_lt h]
  | succ m ih =>
    intro i h
    have hlen : 0 < ids.length := Nat.lt_of_le_of_lt (Nat.zero_le i) h
    show followLinks (mkLinks ids) m (stepF (mkLinks ids) (ids.getD i "")) = _
    rw [stepF_mkLinks hnd h, ih ((i + 1) % ids.length) (Nat.mod_lt _ hlen)]
    rw [Nat.mod_add_mod]
    have harith : i + 1 + m = i + (m + 1) := by omega
    rw [harith]

theorem orbit_eq_rotate {ids : List String} (hnd : ids.Nodup) {i : Nat}
    (h : i < ids.length) :
    (List.range ids.length).map
        (fun k => followLinks (mkLinks ids) k (ids.getD i "")) =
      ids.rotate i := by
  apply List.ext_getElem
  · rw [List.length_map, List.length_range, List.length_rotate]
  · intro k h1 h2
    have hk : k < ids.length := by simpa using h1
    have hlen : 0 < ids.length := Nat.lt_of_le_of_lt (Nat.zero_le i) h
    have hmod : (i + k) % ids.length < ids.length := Nat.mod_lt _ hlen
    rw [List.getElem_map, List.getElem_range, followLinks_mkLinks hnd k i h,
      List.getElem_rotate, Nat.add_comm k i]
    exact List.getD_eq_getElem ids "" hmod

theorem mkLinks_no_self {ids : List String} (hnd : ids.Nodup)
    (hlen : 2 ≤ ids.length) : ∀ pr ∈ mkLinks ids, pr.1 ≠ pr.2 := by
  intro pr hpr
  rcases List.mem_iff_getElem.1 hpr with ⟨i, hi, hget⟩
  rw [mkLinks_getElem ids i hi] at hget
  have hi' : i < ids.length := by
    have := mkLinks_length ids
    omega
  have hlen0 : 0 < ids.length := by omega
  have hmod : (i + 1) % ids.length < ids.length := Nat.mod_lt _ hlen0
  rw [← hget]
  simp only [ne_eq]
  rw [List.getD_eq_getElem ids "" hi', List.getD_eq_getElem ids "" hmod]
  rw [List.Nodup.getElem_inj_iff hnd]
  intro hij
  by_cases hcase : i + 1 < ids.length
  · rw [Nat.mod_eq_of_lt hcase] at hij
    omega
  · have hieq : i + 1 = ids.length := by omega
    rw [hieq, Nat.mod_self] at hij
    omega

/-! ### Unfolding lemmas for the server operations -/

theorem reachable_of_runFrom :
    ∀ (evs : List Event) (st st' : ServerState),
      Reachable st → runFrom st evs = some st' → Reachable st' := by
  intro evs
  induction evs with
  | nil =>
    intro st st' hr hrun
    unfold runFrom at hrun
    injection hrun with hrun
    rw [← hrun]
    exact hr
  | cons e rest ih =>
    intro st st' hr hrun
    unfold runFrom at hrun
    cases hstep : step st e with
    | none => rw [hstep] at hrun; exact absurd hrun (by simp)
    | some r =>
      rw [hstep] at hrun
      exact ih r.1 st' (Reachable.next hr hstep) hrun

theorem reachable_runEvents {evs : List Event} {st : ServerState}
    (h : runEvents evs = some st) : Reachable st :=
  reachable_of_runFrom evs initState st Reachable.init h

theorem performShuffle_sessions_eq {st : ServerState} {code : String}
    {sess : Session} (js : List Nat) (h : objGet code st.sessions = some sess) :
    (performShuffle st code js).1.sessions =
      objSet code
        { sess with links := mkLinks (fisherYates (sess.participants.map Prod.fst) js) }
        st.sessions := by
  unfold performShuffle
  rw [h]

theorem linksAfter_eq {st : ServerState} {code : String} {sess : Session}
    (js : List Nat) (h : objGet code st.sessions = some sess) :
    linksAfter st code js =
      mkLinks (fisherYates (sess.participants.map Prod.fst) js) := by
  unfold linksAfter
  rw [performShuffle_sessions_eq js h, objGet_objSet_self]
  rfl

theorem performShuffle_msgs {st : ServerState} {code : String} {sess : Session}
    (js : List Nat) (h : objGet code st.sessions = some sess) :
    (performShuffle st code js).2 =
      (mkLinks (fisherYates (sess.participants.map Prod.fst) js)).foldr
        (fun ft acc =>
          match objGet ft.1 sess.participants, objGet ft.2 sess.participants with
          | some pFrom, some pTo =>
            sendTo st pFrom.socket
              (OutMsg.shuffle ft.2 pTo.name (politeFlag ft.1 ft.2)) ++ acc
          | _, _ => acc) [] := by
  unfold performShuffle
  rw [h]

theorem ltChars_self : ∀ l : List Char, ltChars l l = false := by
  intro l
  induction l with
  | nil => rfl
  | cons c t ih =>
    show (if c.toNat < c.toNat then true
          else if c.toNat < c.toNat then false else ltChars t t) = false
    rw [if_neg (Nat.lt_irrefl _), if_neg (Nat.lt_irrefl _)]
    exact ih

theorem ltChars_asymm : ∀ (l1 l2 : List Char), l1 ≠ l2 →
    ltChars l1 l2 = !ltChars l2 l1 := by
  intro l1
  induction l1 with
  | nil =>
    intro l2 h
    cases l2 with
    | nil => exact absurd rfl h
    | cons c t => rfl
  | cons c1 t1 ih =>
    intro l2 h
    cases l2 with
    | nil => rfl
    | cons c2 t2 =>
      show (if c1.toNat < c2.toNat then true
            else if c2.toNat < c1.toNat then false else ltChars t1 t2) =
        !(if c2.toNat < c1.toNat then true
          else if c1.toNat < c2.toNat then false else ltChars t2 t1)
      rcases Nat.lt_trichotomy c1.toNat c2.toNat with hlt | heq | hgt
      · rw [if_pos hlt, if_neg (Nat.lt_asymm hlt), if_pos hlt]
        rfl
      · have hc : c1 = c2 := Char.ext (UInt32.ext heq)
        have hn1 : ¬ c1.toNat < c2.toNat := by omega
        have hn2 : ¬ c2.toNat < c1.toNat := by omega
        rw [if_neg hn1, if_neg hn2, if_neg hn2, if_neg hn1]
        have ht : t1 ≠ t2 := by
          intro hteq
          exact h (by rw [hc, hteq])
        exact ih t2 ht
      · rw [if_neg (Nat.lt_asymm hgt), if_pos hgt, if_pos hgt]
        rfl

theorem politeFlag_self (x : String) : politeFlag x x = false :=
  ltChars_self x.data

theorem mkLinks_singleton (x : String) : mkLinks [x] = [(x, x)] := by
  show (List.range 1).map (fun i => ([x].getD i "", [x].getD ((i + 1) % 1) "")) =
    [(x, x)]
  have h01 : List.range 1 = [0] := rfl
  rw [h01, List.map_cons, List.map_nil]
  simp

/-! ### Claim C1 -/

/-- Claim C1: for every session with at least 2 participants, one
`performShuffle` call produces exactly `n` directed links whose sources and
targets are each exactly the session's current participant identities, no
participant is linked to itself, and following the links from any participant
returns to it after exactly `n` hops while visiting every participant exactly
once (a single directed cycle). -/
theorem c1_shuffle_single_cycle
    (st : ServerState) (code : String) (sess : Session) (js : List Nat)
    (h : objGet code st.sessions = some sess)
    (hnd : (sess.participants.map Prod.fst).Nodup)
    (hlen : 2 ≤ sess.participants.length) :
    (linksAfter st code js).length = sess.participants.length ∧
    List.Perm ((linksAfter st code js).map Prod.fst)
      (sess.participants.map Prod.fst) ∧
    List.Perm ((linksAfter st code js).map Prod.snd)
      (sess.participants.map Prod.fst) ∧
    (∀ pr ∈ linksAfter st code js, pr.1 ≠ pr.2) ∧
    (∀ x ∈ sess.participants.map Prod.fst,
       followLinks (linksAfter st code js) sess.participants.length x = x ∧
       List.Perm ((List.range sess.participants.length).map
           (fun k => followLinks (linksAfter st code js) k x))
         (sess.participants.map Prod.fst)) := by
  have hl := linksAfter_eq js h
  set perm := fisherYates (sess.participants.map Prod.fst) js with hpermdef
  have hperm : List.Perm perm (sess.participants.map Prod.fst) :=
    fisherYates_perm _ js
  have hnd' : perm.Nodup := hperm.nodup_iff.2 hnd
  have hidslen : (sess.participants.map Prod.fst).length =
      sess.participants.length := List.length_map _ _
  have hlenn : perm.length = sess.participants.length :=
    hperm.length_eq.trans hidslen
  have hlen2 : 2 ≤ perm.length := by omega
  refine ⟨?_, ?_, ?_, ?_, ?_⟩
  · rw [hl, mkLinks_length, hlenn]
  · rw [hl, mkLinks_map_fst]
    exact hperm
  · rw [hl, mkLinks_map_snd]
    exact (List.rotate_perm perm 1).trans hperm
  · intro pr hpr
    rw [hl] at hpr
    exact mkLinks_no_self hnd' hlen2 pr hpr
  · intro x hx
    have hxp : x ∈ perm := hperm.mem_iff.2 hx
    rcases List.mem_iff_getElem.1 hxp with ⟨i, hi, hxi⟩
    have hgd : perm.getD i "" = x := by
      rw [List.getD_eq_getElem _ _ hi, hxi]
    constructor
    · rw [hl, ← hgd, ← hlenn]
      rw [followLinks_mkLinks hnd' perm.length i hi]
      rw [Nat.add_mod_right, Nat.mod_eq_of_lt hi]
    · rw [hl, ← hgd, ← hlenn]
      rw [orbit_eq_rotate hnd' hi]
      exact (List.rotate_perm perm i).trans hperm

/-- Claim C1 witness: the three-participant session of `st3`, shuffled with
concrete random draws. -/
theorem c1_witness :
    (objGet "X" st3.sessions = some
        { participants := [("a", { name := some "na", socket := "a" }),
                           ("b", { name := some "nb", socket := "b" }),
                           ("c", { name := some "nc", socket := "c" })],
          links := [("b", "c"), ("c", "a"), ("a", "b")],
          timer := some 0 } ∧
     (([("a", ({ name := some "na", socket := "a" } : Participant)),
        ("b", { name := some "nb", socket := "b" }),
        ("c", { name := some "nc", socket := "c" })].map Prod.fst).Nodup) ∧
     2 ≤ ([("a", ({ name := some "na", socket := "a" } : Participant)),
        ("b", { name := some "nb", socket := "b" }),
        ("c", { name := some "nc", socket := "c" })].length)) ∧
    ((linksAfter st3 "X" [1, 0]).length =
        ([("a", ({ name := some "na", socket := "a" } : Participant)),
          ("b", { name := some "nb", socket := "b" }),
          ("c", { name := some "nc", socket := "c" })]).length ∧
     List.Perm ((linksAfter st3 "X" [1, 0]).map Prod.fst)
       (([("a", ({ name := some "na", socket := "a" } : Participant)),
          ("b", { name := some "nb", socket := "b" }),
          ("c", { name := some "nc", socket := "c" })]).map Prod.fst) ∧
     List.Perm ((linksAfter st3 "X" [1, 0]).map Prod.snd)
       (([("a", ({ name := some "na", socket := "a" } : Participant)),
          ("b", { name := some "nb", socket := "b" }),
          ("c", { name := some "nc", socket := "c" })]).map Prod.fst) ∧
     (∀ pr ∈ linksAfter st3 "X" [1, 0], pr.1 ≠ pr.2) ∧
     (∀ x ∈ ([("a", ({ name := some "na", socket := "a" } : Participant)),
          ("b", { name := some "nb", socket := "b" }),
          ("c", { name := some "nc", socket := "c" })]).map Prod.fst,
        followLinks (linksAfter st3 "X" [1, 0])
          ([("a", ({ name := some "na", socket := "a" } : Participant)),
            ("b", { name := some "nb", socket := "b" }),
            ("c", { name := some "nc", socket := "c" })]).length x = x ∧
        List.Perm ((List.range ([("a", ({ name := some "na", socket := "a" } : Participant)),
            ("b", { name := some "nb", socket := "b" }),
            ("c", { name := some "nc", socket := "c" })]).length).map
            (fun k => followLinks (linksAfter st3 "X" [1, 0]) k x))
          (([("a", ({ name := some "na", socket := "a" } : Participant)),
            ("b", { name := some "nb", socket := "b" }),
            ("c", { name := some "nc", socket := "c" })]).map Prod.fst))) :=
  ⟨⟨by decide, by decide, by decide⟩,
   c1_shuffle_single_cycle st3 "X"
     { participants := [("a", { name := some "na", socket := "a" }),
                        ("b", { name := some "nb", socket := "b" }),
                        ("c", { name := some "nc", socket := "c" })],
       links := [("b", "c"), ("c", "a"), ("a", "b")],
       timer := some 0 } [1, 0] (by decide) (by decide) (by decide)⟩

/-! ### Claim C2 -/

/-- Claim C2 counterexample: the source computes `polite = fromId > toId`, a
function of the directed edge, not of the unordered pair: for the identities
"a" and "b" the computation yields `false` when "a" is the `from` side and
`true` when "b" is the `from` side, so recomputing the flag with the two
identities swapped does not yield the same flag. -/
theorem c2_counterexample :
    politeFlag "a" "b" ≠ politeFlag "b" "a" ∧
    politeFlag "a" "b" = false ∧ politeFlag "b" "a" = true := by
  decide

/-- Claim C2 (amended): the polite flag of a directed link is the
deterministic function `politeFlag from to` (: is the `to` identity
lexicographically smaller than the `from` identity?) of the ordered pair, not
of the unordered pair; for two distinct identities the two directed
computations always disagree, so exactly one direction of each unordered pair
is flagged polite - the direction emanating from the lexicographically larger
identity.  In a 2-participant session, where both directed links exist,
exactly one of the two participants therefore receives `polite: true`. -/
theorem c2_polite_directional (A B : String) (hne : A ≠ B) :
    politeFlag A B = !politeFlag B A ∧
    (politeFlag A B && politeFlag B A) = false ∧
    (politeFlag A B || politeFlag B A) = true := by
  have hdata : B.data ≠ A.data := by
    intro hd
    apply hne
    cases A with
    | mk la =>
      cases B with
      | mk lb =>
        simp only at hd
        rw [hd]
  have e : politeFlag A B = !politeFlag B A := ltChars_asymm B.data A.data hdata
  refine ⟨e, ?_, ?_⟩
  · rw [e]
    cases politeFlag B A with
    | false => rfl
    | true => rfl
  · rw [e]
    cases politeFlag B A with
    | false => rfl
    | true => rfl

/-- Claim C2 witness: the amended statement at the identities "x" and "y". -/
theorem c2_witness :
    ("x" : String) ≠ "y" ∧
    (politeFlag "x" "y" = !politeFlag "y" "x" ∧
     (politeFlag "x" "y" && politeFlag "y" "x") = false ∧
     (politeFlag "x" "y" || politeFlag "y" "x") = true) :=
  ⟨by decide, c2_polite_directional "x" "y" (by decide)⟩

/-! ### Claim C3 -/

/-- Claim C3 (supporting theorem for the code bug): an unparseable frame
crashes the handler (`JSON.parse` on line 51 is unguarded, so the exception
escapes and is fatal to the process), a `joinSession` frame without a
`payload` object crashes it likewise (destructuring throws), and a
`joinSession` payload missing its `sessionCode` is not rejected: it mutates
the session table, creating/joining a session keyed by the string
"undefined". -/
theorem c3_malformed_crash :
    handleMessage initState "c1" none [] = none ∧
    step (connectOp initState "a")
      (Event.message "a" (some (ClientMsg.joinSession none)) []) = none ∧
    ((runEvents [Event.connect "a",
        Event.message "a" (some (ClientMsg.joinSession
          (some { sessionCode := none, participantName := some "n" }))) []]).map
      (fun st => (objGet "undefined" st.sessions).isSome)) = some true := by
  decide

/-! ### Claim C4 -/

/-- Claim C4 counterexample: a reachable one-participant session ("a" alone
in "X", the state `st1p` reached by connect-and-join) on which
`performShuffle` is not a no-op: it installs the self-link `a -> a` and
delivers a shuffle message pairing "a" with itself. -/
theorem c4_counterexample :
    runEvents [Event.connect "a", joinEv "a" "X" "na"] = some st1p ∧
    (objGet "X" st1p.sessions).map (fun s => s.participants.length) = some 1 ∧
    linksAfter st1p "X" [] = [("a", "a")] ∧
    (performShuffle st1p "X" []).2 =
      [("a", OutMsg.shuffle "a" (some "na") false)] := by
  decide

/-- Claim C4 (amended): for a session with 0 participants `performShuffle`
produces an empty link map and delivers no message; for a session with
exactly 1 participant it links the sole participant to itself and delivers it
one self-pairing shuffle message (with `polite: false`) when its socket is
open. -/
theorem c4_shuffle_small_sessions
    (st : ServerState) (code : String) (sess : Session) (js : List Nat)
    (h : objGet code st.sessions = some sess) :
    (sess.participants = [] →
       linksAfter st code js = [] ∧ (performShuffle st code js).2 = []) ∧
    (∀ pid p, sess.participants = [(pid, p)] →
       linksAfter st code js = [(pid, pid)] ∧
       (performShuffle st code js).2 =
         sendTo st p.socket (OutMsg.shuffle pid p.name false)) := by
  constructor
  · intro hp
    constructor
    · rw [linksAfter_eq js h, hp]
      rfl
    · rw [performShuffle_msgs js h, hp]
      rfl
  · intro pid p hp
    have hobj : objGet pid [(pid, p)] = some p := by
      rw [objGet_cons, if_pos rfl]
    have hfy : fisherYates [pid] js = [pid] := rfl
    constructor
    · rw [linksAfter_eq js h, hp]
      show mkLinks (fisherYates [pid] js) = [(pid, pid)]
      rw [hfy]
      exact mkLinks_singleton pid
    · rw [performShuffle_msgs js h, hp]
      show List.foldr _ [] (mkLinks (fisherYates [pid] js)) = _
      rw [hfy, mkLinks_singleton pid, List.foldr_cons, List.foldr_nil, hobj]
      show sendTo st p.socket (OutMsg.shuffle pid p.name (politeFlag pid pid)) ++ [] = _
      rw [politeFlag_self, List.append_nil]

/-- Claim C4 witness: the amended statement at the one-participant state
`st1p` (and its vacuous 0-participant branch). -/
theorem c4_witness :
    objGet "X" st1p.sessions = some
      { participants := [("a", { name := some "na", socket := "a" })],
        links := [], timer := none } ∧
    ((([("a", ({ name := some "na", socket := "a" } : Participant))] :
          List (String × Participant)) = [] →
       linksAfter st1p "X" [] = [] ∧ (performShuffle st1p "X" []).2 = []) ∧
     (∀ pid p, ([("a", ({ name := some "na", socket := "a" } : Participant))] :
          List (String × Participant)) = [(pid, p)] →
       linksAfter st1p "X" [] = [(pid, pid)] ∧
       (performShuffle st1p "X" []).2 =
         sendTo st1p p.socket (OutMsg.shuffle pid p.name false))) :=
  ⟨by decide,
   c4_shuffle_small_sessions st1p "X"
     { participants := [("a", { name := some "na", socket := "a" })],
       links := [], timer := none } [] (by decide)⟩

/-! ### Claim C5 -/

/-- Claim C5: a relay from a sender whose connection records an existing
session neither mutates any state (the returned state is exactly the input
state) nor errors; when the recipient id is a participant of that session and
its socket is open, exactly one message is delivered to it, carrying the
opaque payload unmodified and tagged with the sender's id as `from`; when the
recipient is absent from the session, or present with a non-open socket, no
message is delivered to anyone. -/
theorem c5_relay_best_effort
    (st : ServerState) (cid code : String) (sess : Session)
    (toId sig : String) (c : Conn)
    (hc : objGet cid st.conns = some c) (hcode : c.sessionCode = some code)
    (hsess : objGet code st.sessions = some sess) :
    (relayOp st cid (some toId) sig).1 = st ∧
    (∀ p, objGet toId sess.participants = some p → connOpen st p.socket = true →
       (relayOp st cid (some toId) sig).2 =
         [(p.socket, OutMsg.webrtcSignal cid sig)]) ∧
    (objGet toId sess.participants = none →
       (relayOp st cid (some toId) sig).2 = []) ∧
    (∀ p, objGet toId sess.participants = some p →
       connOpen st p.socket = false →
       (relayOp st cid (some toId) sig).2 = []) := by
  have h1 : (objGet cid st.conns).bind Conn.sessionCode = some code := by
    rw [hc]
    exact hcode
  have hrel : relayOp st cid (some toId) sig =
      (match objGet toId sess.participants with
       | none => (st, [])
       | some p => (st, sendTo st p.socket (OutMsg.webrtcSignal cid sig))) := by
    unfold relayOp
    rw [h1]
    show (match objGet code st.sessions with
          | none => (st, [])
          | some sess =>
            match objGet toId sess.participants with
            | none => (st, [])
            | some p => (st, sendTo st p.socket (OutMsg.webrtcSignal cid sig))) = _
    rw [hsess]
  refine ⟨?_, ?_, ?_, ?_⟩
  · rw [hrel]
    cases objGet toId sess.participants with
    | none => rfl
    | some p => rfl
  · intro p hp hopen
    rw [hrel, hp]
    show sendTo st p.socket (OutMsg.webrtcSignal cid sig) = _
    rw [sendTo, hopen]
    rfl
  · intro hp
    rw [hrel, hp]
  · intro p hp hopen
    rw [hrel, hp]
    show sendTo st p.socket (OutMsg.webrtcSignal cid sig) = _
    rw [sendTo, hopen]
    rfl

/-- Claim C5 witness: in the three-participant state `st3`, "a" relays to the
present, open recipient "b" - exactly one tagged message - and the state is
returned unchanged. -/
theorem c5_witness :
    (objGet "a" st3.conns = some { sessionCode := some "X", isOpen := true } ∧
     ({ sessionCode := some "X", isOpen := true } : Conn).sessionCode = some "X" ∧
     objGet "X" st3.sessions = some
       { participants := [("a", { name := some "na", socket := "a" }),
                          ("b", { name := some "nb", socket := "b" }),
                          ("c", { name := some "nc", socket := "c" })],
         links := [("b", "c"), ("c", "a"), ("a", "b")],
         timer := some 0 }) ∧
    ((relayOp st3 "a" (some "b") "sig").1 = st3 ∧
     (∀ p, objGet "b" ([("a", ({ name := some "na", socket := "a" } : Participant)),
           ("b", { name := some "nb", socket := "b" }),
           ("c", { name := some "nc", socket := "c" })]) = some p →
        connOpen st3 p.socket = true →
        (relayOp st3 "a" (some "b") "sig").2 =
          [(p.socket, OutMsg.webrtcSignal "a" "sig")]) ∧
     (objGet "b" ([("a", ({ name := some "na", socket := "a" } : Participant)),
           ("b", { name := some "nb", socket := "b" }),
           ("c", { name := some "nc", socket := "c" })]) = none →
        (relayOp st3 "a" (some "b") "sig").2 = []) ∧
     (∀ p, objGet "b" ([("a", ({ name := some "na", socket := "a" } : Participant)),
           ("b", { name := some "nb", socket := "b" }),
           ("c", { name := some "nc", socket := "c" })]) = some p →
        connOpen st3 p.socket = false →
        (relayOp st3 "a" (some "b") "sig").2 = [])) :=
  ⟨⟨by decide, by decide, by decide⟩,
   c5_relay_best_effort st3 "a" "X"
     { participants := [("a", { name := some "na", socket := "a" }),
                        ("b", { name := some "nb", socket := "b" }),
                        ("c", { name := some "nc", socket := "c" })],
       links := [("b", "c"), ("c", "a"), ("a", "b")],
       timer := some 0 } "b" "sig"
     { sessionCode := some "X", isOpen := true }
     (by decide) (by decide) (by decide)⟩

/-! ### Claim C10 -/

/-- Claim C10 counterexample: "b" has never joined any session (its recorded
session code is unset), yet its webrtc-signal is forwarded: after a malformed
join by "a" created a session keyed "undefined", the handler's
`sessions[ws.sessionCode]` lookup for "b" coerces the unset code to the
property key "undefined", finds that session, and relays the signal to "a". -/
theorem c10_counterexample :
    ((runEvents traceUndefinedKey).map (fun st =>
        decide (((objGet "b" st.conns).bind Conn.sessionCode) = none))) =
      some true ∧
    ((runEvents traceUndefinedKey).bind (fun st =>
        (step st (Event.message "b"
          (some (ClientMsg.webrtcSignal
            (some { toId := some "a", signal := "sig" }))) [])).map
          (fun r => r.2))) =
      some [("a", OutMsg.webrtcSignal "b" "sig")] := by
  decide

/-- Claim C10 (amended): a webrtc-signal from a connection whose effective
session key - the recorded session code, with an unset code coerced to the
property key "undefined" - names no existing session is silently ignored: no
message is forwarded, no error is raised, and the state is unchanged. -/
theorem c10_relay_unknown_session_ignored
    (st : ServerState) (cid : String) (toOpt : Option String) (sig : String)
    (h : objGet (jsKey ((objGet cid st.conns).bind Conn.sessionCode))
        st.sessions = none) :
    relayOp st cid toOpt sig = (st, []) := by
  show (match objGet (jsKey ((objGet cid st.conns).bind Conn.sessionCode))
          st.sessions with
        | none => (st, [])
        | some sess =>
          match objGet (jsKey toOpt) sess.participants with
          | none => (st, [])
          | some p => (st, sendTo st p.socket (OutMsg.webrtcSignal cid sig))) =
    (st, [])
  rw [h]

/-- Claim C10 witness: a connection unknown to the empty initial state. -/
theorem c10_witness :
    objGet (jsKey ((objGet "z" initState.conns).bind Conn.sessionCode))
      initState.sessions = none ∧
    relayOp initState "z" none "s" = (initState, []) :=
  ⟨by decide, c10_relay_unknown_session_ignored initState "z" none "s" (by decide)⟩

/-! ### Characterization of the server operations -/

theorem objSet_of_objGet_eq {κ α : Type} [DecidableEq κ] {k : κ} {v : α} :
    ∀ {l : List (κ × α)}, objGet k l = some v → objSet k v l = l := by
  intro l
  induction l with
  | nil => intro h; simp [objGet] at h
  | cons hd tl ih =>
    intro h
    obtain ⟨k1, v1⟩ := hd
    rw [objGet_cons] at h
    rw [objSet_cons]
    by_cases hk : k = k1
    · rw [if_pos hk] at h
      injection h with h
      rw [if_pos hk.symm, hk, h]
    · rw [if_neg hk] at h
      rw [if_neg (fun hh => hk hh.symm), ih h]

theorem objGet_eq_of_mem_nodup {κ α : Type} [DecidableEq κ]
    {l : List (κ × α)} (hnd : (l.map Prod.fst).Nodup) {x : κ × α}
    (hx : x ∈ l) : objGet x.1 l = some x.2 := by
  induction l with
  | nil => simp at hx
  | cons hd tl ih =>
    obtain ⟨k1, v1⟩ := hd
    rw [List.map_cons, List.nodup_cons] at hnd
    rcases List.mem_cons.1 hx with rfl | hx'
    · rw [objGet_cons, if_pos rfl]
    · have hne : x.1 ≠ k1 := by
        intro hh
        have hmem : x.1 ∈ tl.map Prod.fst := List.mem_map_of_mem Prod.fst hx'
        rw [hh] at hmem
        exact hnd.1 hmem
      rw [objGet_cons, if_neg hne]
      exact ih hnd.2 hx'

theorem session_eta {sess : Session} (h : sess.timer = none) :
    ({ participants := sess.participants, links := sess.links,
       timer := none } : Session) = sess := by
  obtain ⟨p, lk, tm⟩ := sess
  simp only at h
  rw [h]

theorem connectOp_sessions (st : ServerState) (cid : String) :
    (connectOp st cid).sessions = st.sessions := by
  unfold connectOp
  split <;> rfl

theorem connectOp_intervals (st : ServerState) (cid : String) :
    (connectOp st cid).intervals = st.intervals := by
  unfold connectOp
  split <;> rfl

theorem connectOp_nextTimer (st : ServerState) (cid : String) :
    (connectOp st cid).nextTimer = st.nextTimer := by
  unfold connectOp
  split <;> rfl

theorem relayOp_state (st : ServerState) (cid : String) (toOpt : Option String)
    (sig : String) : (relayOp st cid toOpt sig).1 = st := by
  show (match objGet (jsKey ((objGet cid st.conns).bind Conn.sessionCode))
          st.sessions with
        | none => (st, [])
        | some sess =>
          match objGet (jsKey toOpt) sess.participants with
          | none => (st, [])
          | some p => (st, sendTo st p.socket (OutMsg.webrtcSignal cid sig))).1 = st
  split
  · rfl
  · split <;> rfl

theorem performShuffle_conns (st : ServerState) (code : String) (js : List Nat) :
    (performShuffle st code js).1.conns = st.conns := by
  unfold performShuffle
  split <;> rfl

theorem performShuffle_intervals (st : ServerState) (code : String) (js : List Nat) :
    (performShuffle st code js).1.intervals = st.intervals := by
  unfold performShuffle
  split <;> rfl

theorem performShuffle_timeouts (st : ServerState) (code : String) (js : List Nat) :
    (performShuffle st code js).1.timeouts = st.timeouts := by
  unfold performShuffle
  split <;> rfl

theorem performShuffle_nextTimer (st : ServerState) (code : String) (js : List Nat) :
    (performShuffle st code js).1.nextTimer = st.nextTimer := by
  unfold performShuffle
  split <;> rfl

theorem performShuffle_objGet_ne {st : ServerState} {code c : String}
    (js : List Nat) (h : c ≠ code) :
    objGet c (performShuffle st code js).1.sessions = objGet c st.sessions := by
  unfold performShuffle
  split
  · rfl
  · exact objGet_objSet_ne _ _ h

theorem clearTimer_sessions {st : ServerState} {code : String} {sess : Session}
    (hs : objGet code st.sessions = some sess) :
    (clearTimer st code).sessions =
      objSet code { sess with timer := none } st.sessions := by
  unfold clearTimer
  rw [hs]
  show (match sess.timer with
        | none => st
        | some t =>
          { st with
            sessions := objSet code { sess with timer := none } st.sessions,
            intervals := st.intervals.filter (fun p => p.1 != t) }).sessions =
    objSet code { sess with timer := none } st.sessions
  cases ht : sess.timer with
  | none =>
    rw [show ({ sess with timer := none } : Session) = sess from session_eta ht]
    rw [objSet_of_objGet_eq hs]
  | some t => rfl

theorem clearTimer_intervals {st : ServerState} {code : String} {sess : Session}
    (hs : objGet code st.sessions = some sess) :
    (clearTimer st code).intervals =
      match sess.timer with
      | some t => st.intervals.filter (fun p => p.1 != t)
      | none => st.intervals := by
  unfold clearTimer
  rw [hs]
  show (match sess.timer with
        | none => st
        | some t =>
          { st with
            sessions := objSet code { sess with timer := none } st.sessions,
            intervals := st.intervals.filter (fun p => p.1 != t) }).intervals =
    match sess.timer with
    | some t => st.intervals.filter (fun p => p.1 != t)
    | none => st.intervals
  cases sess.timer <;> rfl

theorem clearTimer_conns (st : ServerState) (code : String) :
    (clearTimer st code).conns = st.conns := by
  unfold clearTimer
  split
  · rfl
  · split <;> rfl

theorem clearTimer_nextTimer (st : ServerState) (code : String) :
    (clearTimer st code).nextTimer = st.nextTimer := by
  unfold clearTimer
  split
  · rfl
  · split <;> rfl

theorem clearTimer_timeouts (st : ServerState) (code : String) :
    (clearTimer st code).timeouts = st.timeouts := by
  unfold clearTimer
  split
  · rfl
  · split <;> rfl

theorem startTimer_of_le {st : ServerState} {code : String} {sess : Session}
    (hs : objGet code st.sessions = some sess)
    (hle : ¬ 2 < sess.participants.length) : startTimer st code = st := by
  unfold startTimer
  rw [hs]
  show (if 2 < sess.participants.length then
          { st with
            sessions := objSet code { sess with timer := some st.nextTimer } st.sessions,
            intervals := (st.nextTimer, code) :: st.intervals,
            nextTimer := st.nextTimer + 1 }
        else st) = st
  rw [if_neg hle]

theorem startTimer_of_gt {st : ServerState} {code : String} {sess : Session}
    (hs : objGet code st.sessions = some sess)
    (hgt : 2 < sess.participants.length) :
    startTimer st code =
      { st with
        sessions := objSet code { sess with timer := some st.nextTimer } st.sessions,
        intervals := (st.nextTimer, code) :: st.intervals,
        nextTimer := st.nextTimer + 1 } := by
  unfold startTimer
  rw [hs]
  show (if 2 < sess.participants.length then
          { st with
            sessions := objSet code { sess with timer := some st.nextTimer } st.sessions,
            intervals := (st.nextTimer, code) :: st.intervals,
            nextTimer := st.nextTimer + 1 }
        else st) =
    { st with
      sessions := objSet code { sess with timer := some st.nextTimer } st.sessions,
      intervals := (st.nextTimer, code) :: st.intervals,
      nextTimer := st.nextTimer + 1 }
  rw [if_pos hgt]

theorem closeFind_mem {cid : String} :
    ∀ {l : List (String × Session)} {cs : String × Session},
      closeFind cid l = some cs →
      cs ∈ l ∧ (objGet cid cs.2.participants).isSome = true := by
  intro l
  induction l with
  | nil => intro cs h; simp [closeFind] at h
  | cons hd tl ih =>
    intro cs h
    obtain ⟨code, sess⟩ := hd
    rw [closeFind] at h
    by_cases hp : (objGet cid sess.participants).isSome = true
    · rw [if_pos hp] at h
      injection h with h
      rw [← h]
      exact ⟨List.mem_cons_self _ _, hp⟩
    · rw [if_neg hp] at h
      rcases ih h with ⟨h1, h2⟩
      exact ⟨List.mem_cons_of_mem _ h1, h2⟩

theorem closeFind_objGet {cid : String} {l : List (String × Session)}
    {cs : String × Session} (hnd : (l.map Prod.fst).Nodup)
    (h : closeFind cid l = some cs) : objGet cs.1 l = some cs.2 :=
  objGet_eq_of_mem_nodup hnd (closeFind_mem h).1

/-! ### Preservation of the well-formedness and timer invariants -/

theorem sessKeysNodup_objSet {l : List (String × Session)} {code : String}
    {sess' : Session} (h : sessKeysNodup l)
    (hpn : (sess'.participants.map Prod.fst).Nodup) :
    sessKeysNodup (objSet code sess' l) := by
  refine ⟨keys_nodup_objSet code sess' h.1, ?_⟩
  intro cs hcs
  rcases (mem_objSet_iff h.1 cs).1 hcs with rfl | ⟨hmem, _⟩
  · exact hpn
  · exact h.2 cs hmem

theorem sessKeysNodup_objDel {l : List (String × Session)} {code : String}
    (h : sessKeysNodup l) : sessKeysNodup (objDel code l) := by
  refine ⟨keys_nodup_objDel code h.1, ?_⟩
  intro cs hcs
  exact h.2 cs ((mem_objDel_iff h.1 cs).1 hcs).1

theorem timerLink_objSet_samePT {l : List (String × Session)}
    {iv : List (Nat × String)} {nt : Nat} {code : String} {sess sess' : Session}
    (h : timerLink l iv nt) (hnd : (l.map Prod.fst).Nodup)
    (hs : objGet code l = some sess) (ht : sess'.timer = sess.timer) :
    timerLink (objSet code sess' l) iv nt := by
  obtain ⟨h1, h2, h3, h4⟩ := h
  refine ⟨?_, ?_, h3, h4⟩
  · intro cs hcs t hts
    rcases (mem_objSet_iff hnd cs).1 hcs with rfl | ⟨hmem, _⟩
    · simp only at hts
      rw [ht] at hts
      exact h1 (code, sess) (objGet_eq_some_mem hs) t hts
    · exact h1 cs hmem t hts
  · intro p hp
    rcases h2 p hp with ⟨sess2, hs2, ht2⟩
    by_cases hpc : p.2 = code
    · refine ⟨sess', ?_, ?_⟩
      · rw [hpc, objGet_objSet_self]
      · rw [hpc] at hs2
        rw [hs2] at hs
        injection hs with hs
        rw [ht, ← hs]
        exact ht2
    · exact ⟨sess2, by rw [objGet_objSet_ne _ _ hpc]; exact hs2, ht2⟩

theorem timerLink_objSet_newNone {l : List (String × Session)}
    {iv : List (Nat × String)} {nt : Nat} {code : String} {sess' : Session}
    (h : timerLink l iv nt) (hnd : (l.map Prod.fst).Nodup)
    (habs : objGet code l = none) (ht : sess'.timer = none) :
    timerLink (objSet code sess' l) iv nt := by
  obtain ⟨h1, h2, h3, h4⟩ := h
  refine ⟨?_, ?_, h3, h4⟩
  · intro cs hcs t hts
    rcases (mem_objSet_iff hnd cs).1 hcs with rfl | ⟨hmem, _⟩
    · simp only at hts
      rw [ht] at hts
      exact absurd hts (by simp)
    · exact h1 cs hmem t hts
  · intro p hp
    rcases h2 p hp with ⟨sess2, hs2, ht2⟩
    have hpc : p.2 ≠ code := by
      intro hh
      rw [hh, habs] at hs2
      exact absurd hs2 (by simp)
    exact ⟨sess2, by rw [objGet_objSet_ne _ _ hpc]; exact hs2, ht2⟩

theorem GInv_performShuffle {st : ServerState} (code : String) (js : List Nat)
    (h : GInv st) : GInv (performShuffle st code js).1 := by
  obtain ⟨hk, htl, hct⟩ := h
  cases hs : objGet code st.sessions with
  | none =>
    have he : (performShuffle st code js).1 = st := by
      unfold performShuffle
      rw [hs]
    rw [he]
    exact ⟨hk, htl, hct⟩
  | some sess =>
    have hsess := performShuffle_sessions_eq js hs
    refine ⟨?_, ?_, ?_⟩
    · rw [hsess]
      exact sessKeysNodup_objSet hk (hk.2 (code, sess) (objGet_eq_some_mem hs))
    · rw [hsess, performShuffle_intervals, performShuffle_nextTimer]
      exact timerLink_objSet_samePT htl hk.1 hs rfl
    · intro cs hcs
      rw [hsess] at hcs
      rcases (mem_objSet_iff hk.1 cs).1 hcs with rfl | ⟨hmem, _⟩
      · exact hct (code, sess) (objGet_eq_some_mem hs)
      · exact hct cs hmem

theorem initiate_spec {st : ServerState} {code : String} {sess : Session}
    (js : List Nat) (hk : sessKeysNodup st.sessions)
    (htl : timerLink st.sessions st.intervals st.nextTimer)
    (hct : CountTimerExcept st code)
    (hs : objGet code st.sessions = some sess) :
    GInv (initiateShuffleCycle st code js).1 ∧
    (∃ sess', objGet code (initiateShuffleCycle st code js).1.sessions = some sess' ∧
       sess'.participants = sess.participants) ∧
    (∀ c, c ≠ code →
       objGet c (initiateShuffleCycle st code js).1.sessions = objGet c st.sessions) ∧
    (initiateShuffleCycle st code js).1.conns = st.conns := by
  have hinit : (initiateShuffleCycle st code js).1 =
      startTimer (performShuffle (clearTimer st code) code js).1 code := by
    unfold initiateShuffleCycle
    rw [hs]
  rw [hinit]
  obtain ⟨sessA, hA_sess, hAparts, hAtimer⟩ :
      ∃ sessA, (clearTimer st code).sessions = objSet code sessA st.sessions ∧
        sessA.participants = sess.participants ∧ sessA.timer = none :=
    ⟨_, clearTimer_sessions hs, rfl, rfl⟩
  have hA_get : objGet code (clearTimer st code).sessions = some sessA := by
    rw [hA_sess]
    exact objGet_objSet_self _ _ _
  have hA_nk : sessKeysNodup (clearTimer st code).sessions := by
    rw [hA_sess]
    refine sessKeysNodup_objSet hk ?_
    rw [hAparts]
    exact hk.2 (code, sess) (objGet_eq_some_mem hs)
  have hA_tl : timerLink (clearTimer st code).sessions (clearTimer st code).intervals
      (clearTimer st code).nextTimer := by
    rw [hA_sess, clearTimer_nextTimer, clearTimer_intervals hs]
    cases ht : sess.timer with
    | none =>
      show timerLink (objSet code sessA st.sessions) st.intervals st.nextTimer
      refine timerLink_objSet_samePT htl hk.1 hs ?_
      rw [hAtimer, ht]
    | some t =>
      show timerLink (objSet code sessA st.sessions)
        (st.intervals.filter (fun p => p.1 != t)) st.nextTimer
      obtain ⟨t1, t2, t3, t4⟩ := htl
      have htcode : (t, code) ∈ st.intervals :=
        t1 (code, sess) (objGet_eq_some_mem hs) t ht
      refine ⟨?_, ?_, ?_, ?_⟩
      · intro cs hcs t2' hts
        rcases (mem_objSet_iff hk.1 cs).1 hcs with rfl | ⟨hmem, hne⟩
        · rw [hAtimer] at hts
          exact absurd hts (by simp)
        · have hmem2 := t1 cs hmem t2' hts
          have hne2 : t2' ≠ t := by
            intro hh
            rw [hh] at hmem2
            exact hne (t3 (t, cs.1) hmem2 (t, code) htcode rfl)
          refine List.mem_filter.2 ⟨hmem2, ?_⟩
          simpa using hne2
      · intro p hp
        have hp' := List.mem_filter.1 hp
        have hpne : p.1 ≠ t := by simpa using hp'.2
        rcases t2 p hp'.1 with ⟨sess2, hs2, ht2⟩
        by_cases hpc : p.2 = code
        · rw [hpc, hs] at hs2
          injection hs2 with hs2
          rw [← hs2] at ht2
          rw [ht] at ht2
          injection ht2 with ht2
          exact absurd ht2.symm hpne
        · refine ⟨sess2, ?_, ht2⟩
          rw [objGet_objSet_ne _ _ hpc]
          exact hs2
      · intro p hp q hq
        exact t3 p (List.mem_filter.1 hp).1 q (List.mem_filter.1 hq).1
      · intro p hp
        exact t4 p (List.mem_filter.1 hp).1
  have hA_ct : ∀ cs ∈ (clearTimer st code).sessions, cs.1 ≠ code → CountTimerAt cs := by
    intro cs hcs hne
    rw [hA_sess] at hcs
    rcases (mem_objSet_iff hk.1 cs).1 hcs with rfl | ⟨hmem, _⟩
    · exact absurd rfl hne
    · exact hct cs hmem hne
  obtain ⟨sessB, hB_sess, hBparts, hBtimer⟩ :
      ∃ sessB, (performShuffle (clearTimer st code) code js).1.sessions =
          objSet code sessB (clearTimer st code).sessions ∧
        sessB.participants = sess.participants ∧ sessB.timer = none :=
    ⟨_, performShuffle_sessions_eq js hA_get, hAparts, hAtimer⟩
  have hB_get : objGet code (performShuffle (clearTimer st code) code js).1.sessions =
      some sessB := by
    rw [hB_sess]
    exact objGet_objSet_self _ _ _
  have hB_nk : sessKeysNodup (performShuffle (clearTimer st code) code js).1.sessions := by
    rw [hB_sess]
    refine sessKeysNodup_objSet hA_nk ?_
    rw [hBparts]
    exact hk.2 (code, sess) (objGet_eq_some_mem hs)
  have hB_tl : timerLink (performShuffle (clearTimer st code) code js).1.sessions
      (performShuffle (clearTimer st code) code js).1.intervals
      (performShuffle (clearTimer st code) code js).1.nextTimer := by
    rw [hB_sess, performShuffle_intervals, performShuffle_nextTimer]
    refine timerLink_objSet_samePT hA_tl hA_nk.1 hA_get ?_
    rw [hBtimer, hAtimer]
  have hB_ct : ∀ cs ∈ (performShuffle (clearTimer st code) code js).1.sessions,
      cs.1 ≠ code → CountTimerAt cs := by
    intro cs hcs hne
    rw [hB_sess] at hcs
    rcases (mem_objSet_iff hA_nk.1 cs).1 hcs with rfl | ⟨hmem, _⟩
    · exact absurd rfl hne
    · exact hA_ct cs hmem hne
  have hB_conns : (performShuffle (clearTimer st code) code js).1.conns = st.conns := by
    rw [performShuffle_conns, clearTimer_conns]
  have hB_get_ne : ∀ c, c ≠ code →
      objGet c (performShuffle (clearTimer st code) code js).1.sessions =
        objGet c st.sessions := by
    intro c hc
    rw [hB_sess, objGet_objSet_ne _ _ hc, hA_sess, objGet_objSet_ne _ _ hc]
  by_cases hgt : 2 < sess.participants.length
  · have hgt' : 2 < sessB.participants.length := by
      rw [hBparts]
      exact hgt
    have hC := startTimer_of_gt hB_get hgt'
    rw [hC]
    obtain ⟨b1, b2, b3, b4⟩ := hB_tl
    refine ⟨⟨?_, ?_, ?_⟩, ?_, ?_, ?_⟩
    · refine sessKeysNodup_objSet hB_nk ?_
      show (sessB.participants.map Prod.fst).Nodup
      rw [hBparts]
      exact hk.2 (code, sess) (objGet_eq_some_mem hs)
    · refine ⟨?_, ?_, ?_, ?_⟩
      · intro cs hcs t hts
        rcases (mem_objSet_iff hB_nk.1 cs).1 hcs with rfl | ⟨hmem, hne⟩
        · simp only at hts
          injection hts with hts
          rw [← hts]
          exact List.mem_cons_self _ _
        · exact List.mem_cons_of_mem _ (b1 cs hmem t hts)
      · intro p hp
        rcases List.mem_cons.1 hp with rfl | hp'
        · exact ⟨_, objGet_objSet_self _ _ _, rfl⟩
        · rcases b2 p hp' with ⟨sess2, hs2, ht2⟩
          by_cases hpc : p.2 = code
          · rw [hpc, hB_get] at hs2
            injection hs2 with hs2
            rw [← hs2] at ht2
            rw [hBtimer] at ht2
            exact absurd ht2 (by simp)
          · refine ⟨sess2, ?_, ht2⟩
            rw [objGet_objSet_ne _ _ hpc]
            exact hs2
      · intro p hp q hq hpq
        rcases List.mem_cons.1 hp with rfl | hp'
        · rcases List.mem_cons.1 hq with rfl | hq'
          · rfl
          · exact absurd (hpq ▸ b4 q hq') (by simp)
        · rcases List.mem_cons.1 hq with rfl | hq'
          · exact absurd (hpq ▸ b4 p hp') (by simp)
          · exact b3 p hp' q hq' hpq
      · intro p hp
        rcases List.mem_cons.1 hp with rfl | hp'
        · simp
        · exact Nat.lt_succ_of_lt (b4 p hp')
    · intro cs hcs
      rcases (mem_objSet_iff hB_nk.1 cs).1 hcs with rfl | ⟨hmem, hne⟩
      · constructor
        · intro h2
          have h2' : sess.participants.length = 2 := by
            rw [← hBparts]
            exact h2
          omega
        · intro _
          rfl
      · exact hB_ct cs hmem hne
    · refine ⟨_, objGet_objSet_self _ _ _, ?_⟩
      show sessB.participants = sess.participants
      exact hBparts
    · intro c hc
      rw [objGet_objSet_ne _ _ hc]
      exact hB_get_ne c hc
    · exact hB_conns
  · have hgt' : ¬ 2 < sessB.participants.length := by
      rw [hBparts]
      exact hgt
    have hC := startTimer_of_le hB_get hgt'
    rw [hC]
    refine ⟨⟨hB_nk, hB_tl, ?_⟩, ⟨sessB, hB_get, hBparts⟩, hB_get_ne, hB_conns⟩
    intro cs hcs
    have hcs' : cs ∈ objSet code sessB (clearTimer st code).sessions := by
      rw [← hB_sess]
      exact hcs
    rcases (mem_objSet_iff hA_nk.1 cs).1 hcs' with rfl | ⟨hmem, hne⟩
    · exact ⟨fun _ => hBtimer, fun hgt2 => absurd hgt2 hgt'⟩
    · exact hB_ct cs hcs hne

theorem closeConns_sessions (st : ServerState) (cid : String) :
    (closeConns st cid).sessions = st.sessions := rfl

theorem closeConns_intervals (st : ServerState) (cid : String) :
    (closeConns st cid).intervals = st.intervals := rfl

theorem closeConns_nextTimer (st : ServerState) (cid : String) :
    (closeConns st cid).nextTimer = st.nextTimer := rfl

theorem GInv_joinOp {st : ServerState} (cid : String) (codeOpt nameOpt : Option String)
    (js : List Nat) (h : GInv st) : GInv (joinOp st cid codeOpt nameOpt js).1 := by
  obtain ⟨hk, htl, hct⟩ := h
  have hs1_nd : ((joinSess1 st (jsKey codeOpt) cid nameOpt).participants.map
      Prod.fst).Nodup := by
    unfold joinSess1
    cases hg : objGet (jsKey codeOpt) st.sessions with
    | none =>
      show ((objSet cid { name := nameOpt, socket := cid }
        ([] : List (String × Participant))).map Prod.fst).Nodup
      simp [objSet]
    | some s =>
      show ((objSet cid { name := nameOpt, socket := cid }
        s.participants).map Prod.fst).Nodup
      exact keys_nodup_objSet _ _ (hk.2 (jsKey codeOpt, s) (objGet_eq_some_mem hg))
  have hreg_sess : (joinRegister st cid codeOpt nameOpt).sessions =
      objSet (jsKey codeOpt) (joinSess1 st (jsKey codeOpt) cid nameOpt)
        st.sessions := rfl
  have hreg_iv : (joinRegister st cid codeOpt nameOpt).intervals = st.intervals := rfl
  have hreg_nt : (joinRegister st cid codeOpt nameOpt).nextTimer = st.nextTimer := rfl
  have hreg_nk : sessKeysNodup (joinRegister st cid codeOpt nameOpt).sessions := by
    rw [hreg_sess]
    exact sessKeysNodup_objSet hk hs1_nd
  have hreg_tl : timerLink (joinRegister st cid codeOpt nameOpt).sessions
      (joinRegister st cid codeOpt nameOpt).intervals
      (joinRegister st cid codeOpt nameOpt).nextTimer := by
    rw [hreg_sess, hreg_iv, hreg_nt]
    cases hg : objGet (jsKey codeOpt) st.sessions with
    | none =>
      refine timerLink_objSet_newNone htl hk.1 hg ?_
      unfold joinSess1
      rw [hg]
      rfl
    | some s =>
      refine timerLink_objSet_samePT htl hk.1 hg ?_
      unfold joinSess1
      rw [hg]
      rfl
  have hreg_ct : CountTimerExcept (joinRegister st cid codeOpt nameOpt)
      (jsKey codeOpt) := by
    intro cs hcs hne
    rw [hreg_sess] at hcs
    rcases (mem_objSet_iff hk.1 cs).1 hcs with rfl | ⟨hmem, _⟩
    · exact absurd rfl hne
    · exact hct cs hmem
  have hreg_get : objGet (jsKey codeOpt) (joinRegister st cid codeOpt nameOpt).sessions =
      some (joinSess1 st (jsKey codeOpt) cid nameOpt) := by
    rw [hreg_sess]
    exact objGet_objSet_self _ _ _
  by_cases hc : 2 ≤ (joinSess1 st (jsKey codeOpt) cid nameOpt).participants.length
  · have hj : (joinOp st cid codeOpt nameOpt js).1 =
        (initiateShuffleCycle (joinRegister st cid codeOpt nameOpt)
          (jsKey codeOpt) js).1 := by
      unfold joinOp
      rw [if_pos hc]
    rw [hj]
    exact (initiate_spec js hreg_nk hreg_tl hreg_ct hreg_get).1
  · have hj : (joinOp st cid codeOpt nameOpt js).1 =
        joinRegister st cid codeOpt nameOpt := by
      unfold joinOp
      rw [if_neg hc]
    rw [hj]
    refine ⟨hreg_nk, hreg_tl, ?_⟩
    intro cs hcs
    rw [hreg_sess] at hcs
    rcases (mem_objSet_iff hk.1 cs).1 hcs with rfl | ⟨hmem, _⟩
    · constructor
      · intro h2
        have h2' : (joinSess1 st (jsKey codeOpt) cid nameOpt).participants.length = 2 :=
          h2
        omega
      · intro h3
        have h3' : 2 < (joinSess1 st (jsKey codeOpt) cid nameOpt).participants.length :=
          h3
        omega
    · exact hct cs hmem

theorem GInv_closeOp {st : ServerState} (cid : String) (js : List Nat)
    (h : GInv st) : GInv (closeOp st cid js).1 := by
  obtain ⟨hk, htl, hct⟩ := h
  have hGcc : GInv (closeConns st cid) := by
    refine ⟨?_, ?_, ?_⟩
    · rw [closeConns_sessions]
      exact hk
    · rw [closeConns_sessions, closeConns_intervals, closeConns_nextTimer]
      exact htl
    · intro cs hcs
      rw [closeConns_sessions] at hcs
      exact hct cs hcs
  unfold closeOp
  cases hf : closeFind cid (closeConns st cid).sessions with
  | none => exact hGcc
  | some cs =>
    show GInv (if (objDel cid cs.2.participants).length = 0 then
        (closeTeardown st cid cs, ([] : List (String × OutMsg)))
      else
        if 1 < (objDel cid cs.2.participants).length then
          ((initiateShuffleCycle (closeShrunk st cid cs) cs.1 js).1,
           closeBroadcast st cid cs ++
             (initiateShuffleCycle (closeShrunk st cid cs) cs.1 js).2)
        else (closeShrunk st cid cs, closeBroadcast st cid cs)).1
    rw [closeConns_sessions] at hf
    have hmem_cs := closeFind_mem hf
    have hget_cs : objGet cs.1 st.sessions = some cs.2 := closeFind_objGet hk.1 hf
    have hpd_nd : (((objDel cid cs.2.participants)).map Prod.fst).Nodup :=
      keys_nodup_objDel cid (hk.2 cs hmem_cs.1)
    have hsh_sess : (closeShrunk st cid cs).sessions =
        objSet cs.1 { cs.2 with participants := objDel cid cs.2.participants }
          st.sessions := by
      unfold closeShrunk
      rw [closeConns_sessions]
    have hsh_iv : (closeShrunk st cid cs).intervals = st.intervals := rfl
    have hsh_nt : (closeShrunk st cid cs).nextTimer = st.nextTimer := rfl
    have hsh_nk : sessKeysNodup (closeShrunk st cid cs).sessions := by
      rw [hsh_sess]
      exact sessKeysNodup_objSet hk hpd_nd
    have hsh_tl : timerLink (closeShrunk st cid cs).sessions
        (closeShrunk st cid cs).intervals (closeShrunk st cid cs).nextTimer := by
      rw [hsh_sess, hsh_iv, hsh_nt]
      exact timerLink_objSet_samePT htl hk.1 hget_cs rfl
    have hsh_ct : CountTimerExcept (closeShrunk st cid cs) cs.1 := by
      intro cs2 hcs2 hne
      rw [hsh_sess] at hcs2
      rcases (mem_objSet_iff hk.1 cs2).1 hcs2 with rfl | ⟨hmem, _⟩
      · exact absurd rfl hne
      · exact hct cs2 hmem
    have hsh_get : objGet cs.1 (closeShrunk st cid cs).sessions =
        some { cs.2 with participants := objDel cid cs.2.participants } := by
      rw [hsh_sess]
      exact objGet_objSet_self _ _ _
    by_cases hz : (objDel cid cs.2.participants).length = 0
    · rw [if_pos hz]
      show GInv (closeTeardown st cid cs)
      have htd_sess : (closeTeardown st cid cs).sessions =
          objDel cs.1 st.sessions := by
        unfold closeTeardown
        rw [closeConns_sessions]
      have htd_iv : (closeTeardown st cid cs).intervals =
          match cs.2.timer with
          | some t => st.intervals.filter (fun p => p.1 != t)
          | none => st.intervals := by
        unfold closeTeardown
        rw [closeConns_intervals]
      have htd_nt : (closeTeardown st cid cs).nextTimer = st.nextTimer := rfl
      obtain ⟨t1, t2, t3, t4⟩ := htl
      refine ⟨?_, ?_, ?_⟩
      · rw [htd_sess]
        exact sessKeysNodup_objDel hk
      · rw [htd_sess, htd_iv, htd_nt]
        cases ht : cs.2.timer with
        | none =>
          show timerLink (objDel cs.1 st.sessions) st.intervals st.nextTimer
          refine ⟨?_, ?_, t3, t4⟩
          · intro cs2 hcs2 t hts
            exact t1 cs2 ((mem_objDel_iff hk.1 cs2).1 hcs2).1 t hts
          · intro p hp
            rcases t2 p hp with ⟨sess2, hs2, ht2⟩
            have hpc : p.2 ≠ cs.1 := by
              intro hh
              rw [hh, hget_cs] at hs2
              injection hs2 with hs2
              rw [← hs2] at ht2
              rw [ht] at ht2
              exact absurd ht2 (by simp)
            refine ⟨sess2, ?_, ht2⟩
            rw [objGet_objDel_ne _ hpc]
            exact hs2
        | some t =>
          show timerLink (objDel cs.1 st.sessions)
            (st.intervals.filter (fun p => p.1 != t)) st.nextTimer
          have htcode : (t, cs.1) ∈ st.intervals := t1 cs hmem_cs.1 t ht
          refine ⟨?_, ?_, ?_, ?_⟩
          · intro cs2 hcs2 t2' hts
            have hm := (mem_objDel_iff hk.1 cs2).1 hcs2
            have hmem2 := t1 cs2 hm.1 t2' hts
            have hne2 : t2' ≠ t := by
              intro hh
              rw [hh] at hmem2
              exact hm.2 (t3 (t, cs2.1) hmem2 (t, cs.1) htcode rfl)
            refine List.mem_filter.2 ⟨hmem2, ?_⟩
            simpa using hne2
          · intro p hp
            have hp' := List.mem_filter.1 hp
            have hpne : p.1 ≠ t := by simpa using hp'.2
            rcases t2 p hp'.1 with ⟨sess2, hs2, ht2⟩
            have hpc : p.2 ≠ cs.1 := by
              intro hh
              rw [hh, hget_cs] at hs2
              injection hs2 with hs2
              rw [← hs2] at ht2
              rw [ht] at ht2
              injection ht2 with ht2
              exact absurd ht2.symm hpne
            refine ⟨sess2, ?_, ht2⟩
            rw [objGet_objDel_ne _ hpc]
            exact hs2
          · intro p hp q hq
            exact t3 p (List.mem_filter.1 hp).1 q (List.mem_filter.1 hq).1
          · intro p hp
            exact t4 p (List.mem_filter.1 hp).1
      · intro cs2 hcs2
        rw [htd_sess] at hcs2
        exact hct cs2 ((mem_objDel_iff hk.1 cs2).1 hcs2).1
    · rw [if_neg hz]
      by_cases h1 : 1 < (objDel cid cs.2.participants).length
      · rw [if_pos h1]
        show GInv (initiateShuffleCycle (closeShrunk st cid cs) cs.1 js).1
        exact (initiate_spec js hsh_nk hsh_tl hsh_ct hsh_get).1
      · rw [if_neg h1]
        show GInv (closeShrunk st cid cs)
        refine ⟨hsh_nk, hsh_tl, ?_⟩
        intro cs2 hcs2
        rw [hsh_sess] at hcs2
        rcases (mem_objSet_iff hk.1 cs2).1 hcs2 with rfl | ⟨hmem, _⟩
        · constructor
          · intro h2
            have h2' : (objDel cid cs.2.participants).length = 2 := h2
            omega
          · intro h3
            have h3' : 2 < (objDel cid cs.2.participants).length := h3
            omega
        · exact hct cs2 hmem

theorem GInv_intervalFireOp {st : ServerState} (tid : Nat) (h : GInv st) :
    GInv (intervalFireOp st tid).1 := by
  obtain ⟨hk, ⟨t1, t2, t3, t4⟩, hct⟩ := h
  unfold intervalFireOp
  cases hg : objGet tid st.intervals with
  | none => exact ⟨hk, ⟨t1, t2, t3, t4⟩, hct⟩
  | some code =>
    exact ⟨hk, ⟨t1, t2, t3, fun p hp => Nat.lt_succ_of_lt (t4 p hp)⟩, hct⟩

theorem GInv_timeoutFireOp {st : ServerState} (tid : Nat) (js : List Nat)
    (h : GInv st) : GInv (timeoutFireOp st tid js).1 := by
  unfold timeoutFireOp
  cases hg : objGet tid st.timeouts with
  | none => exact h
  | some code =>
    exact GInv_performShuffle code js ⟨h.1, h.2.1, h.2.2⟩

theorem GInv_connectOp {st : ServerState} (cid : String) (h : GInv st) :
    GInv (connectOp st cid) := by
  obtain ⟨hk, htl, hct⟩ := h
  refine ⟨?_, ?_, ?_⟩
  · rw [connectOp_sessions]
    exact hk
  · rw [connectOp_sessions, connectOp_intervals, connectOp_nextTimer]
    exact htl
  · intro cs hcs
    rw [connectOp_sessions] at hcs
    exact hct cs hcs

theorem step_GInv {st : ServerState} {e : Event} {st' : ServerState}
    {out : List (String × OutMsg)} (h : GInv st)
    (hs : step st e = some (st', out)) : GInv st' := by
  cases e with
  | connect cid =>
    simp only [step, Option.some.injEq, Prod.mk.injEq] at hs
    rw [← hs.1]
    exact GInv_connectOp cid h
  | message cid raw js =>
    simp only [step] at hs
    by_cases hc : connOpen st cid = true
    · rw [if_pos hc] at hs
      cases raw with
      | none => simp [handleMessage] at hs
      | some msg =>
        cases msg with
        | joinSession p =>
          cases p with
          | none => simp [handleMessage] at hs
          | some pl =>
            simp only [handleMessage, Option.some.injEq] at hs
            have h1 : (joinOp st cid pl.sessionCode pl.participantName js).1 = st' := by
              rw [hs]
            rw [← h1]
            exact GInv_joinOp cid pl.sessionCode pl.participantName js h
        | webrtcSignal p =>
          cases p with
          | none => simp [handleMessage] at hs
          | some pl =>
            simp only [handleMessage, Option.some.injEq] at hs
            have h1 : (relayOp st cid pl.toId pl.signal).1 = st' := by
              rw [hs]
            rw [← h1, relayOp_state]
            exact h
        | other ty =>
          simp only [handleMessage, Option.some.injEq, Prod.mk.injEq] at hs
          rw [← hs.1]
          exact h
    · rw [if_neg hc] at hs
      simp only [Option.some.injEq, Prod.mk.injEq] at hs
      rw [← hs.1]
      exact h
  | closeEv cid js =>
    simp only [step] at hs
    by_cases hc : connOpen st cid = true
    · rw [if_pos hc] at hs
      simp only [Option.some.injEq] at hs
      have h1 : (closeOp st cid js).1 = st' := by rw [hs]
      rw [← h1]
      exact GInv_closeOp cid js h
    · rw [if_neg hc] at hs
      simp only [Option.some.injEq, Prod.mk.injEq] at hs
      rw [← hs.1]
      exact h
  | intervalFire tid =>
    simp only [step, Option.some.injEq] at hs
    have h1 : (intervalFireOp st tid).1 = st' := by rw [hs]
    rw [← h1]
    exact GInv_intervalFireOp tid h
  | timeoutFire tid js =>
    simp only [step, Option.some.injEq] at hs
    have h1 : (timeoutFireOp st tid js).1 = st' := by rw [hs]
    rw [← h1]
    exact GInv_timeoutFireOp tid js h

theorem GInv_initState : GInv initState := by
  refine ⟨⟨?_, ?_⟩, ⟨?_, ?_, ?_, ?_⟩, ?_⟩
  · simp [initState]
  · intro cs hcs
    exact absurd hcs (by simp [initState])
  · intro cs hcs
    exact absurd hcs (by simp [initState])
  · intro p hp
    exact absurd hp (by simp [initState])
  · intro p hp
    exact absurd hp (by simp [initState])
  · intro p hp
    exact absurd hp (by simp [initState])
  · intro cs hcs
    exact absurd hcs (by simp [initState])

theorem reachable_GInv {st : ServerState} (h : Reachable st) : GInv st := by
  induction h with
  | init => exact GInv_initState
  | next hr hstep ih => exact step_GInv ih hstep

/-! ### Claim C6 -/

/-- Claim C6: in every reachable state, a session with exactly 2 participants
has no recurring timer - neither recorded on the session nor live in the
interval table - so the recurring scheduler can never broadcast it a
`shuffle-countdown` (countdowns arise only from firing a live interval);
a session with more than 2 participants has a live recurring timer; each
firing of a live interval for a session code broadcasts a 10-second
`shuffle-countdown` to that session and schedules the delayed shuffle as a
fresh pending timeout; and firing a pending timeout performs the shuffle for
its session code. -/
theorem c6_two_party_no_countdown {st : ServerState} (h : Reachable st) :
    (∀ code sess, objGet code st.sessions = some sess →
       (sess.participants.length = 2 →
          sess.timer = none ∧ ∀ p ∈ st.intervals, p.2 ≠ code) ∧
       (2 < sess.participants.length →
          ∃ t, sess.timer = some t ∧ (t, code) ∈ st.intervals)) ∧
    (∀ tid code, objGet tid st.intervals = some code →
       intervalFireOp st tid =
         ({ st with timeouts := (st.nextTimer, code) :: st.timeouts,
                    nextTimer := st.nextTimer + 1 },
          broadcastToSession st code (OutMsg.shuffleCountdown 10))) ∧
    (∀ tid code js, objGet tid st.timeouts = some code →
       timeoutFireOp st tid js =
         performShuffle
           { st with timeouts := st.timeouts.filter (fun p => p.1 != tid) }
           code js) := by
  obtain ⟨hk, ⟨t1, t2, t3, t4⟩, hct⟩ := reachable_GInv h
  refine ⟨?_, ?_, ?_⟩
  · intro code sess hs
    constructor
    · intro h2
      have htn : sess.timer = none := (hct (code, sess) (objGet_eq_some_mem hs)).1 h2
      refine ⟨htn, ?_⟩
      intro p hp hpc
      rcases t2 p hp with ⟨sess2, hs2, ht2⟩
      rw [hpc, hs] at hs2
      injection hs2 with hs2
      rw [← hs2] at ht2
      rw [htn] at ht2
      exact absurd ht2 (by simp)
    · intro h3
      have hts : sess.timer.isSome = true :=
        (hct (code, sess) (objGet_eq_some_mem hs)).2 h3
      cases ht : sess.timer with
      | none => rw [ht] at hts; simp at hts
      | some t => exact ⟨t, rfl, t1 (code, sess) (objGet_eq_some_mem hs) t ht⟩
  · intro tid code hg
    unfold intervalFireOp
    rw [hg]
  · intro tid code js hg
    unfold timeoutFireOp
    rw [hg]

/-- Claim C6 witness: the reachable three-participant state `st3` - its
session has a live recurring timer. -/
theorem c6_witness :
    (sess3X.participants.length = 2 →
       sess3X.timer = none ∧ ∀ p ∈ st3.intervals, p.2 ≠ "X") ∧
    (2 < sess3X.participants.length →
       ∃ t, sess3X.timer = some t ∧ (t, "X") ∈ st3.intervals) :=
  (c6_two_party_no_countdown
      (reachable_runEvents (show runEvents trace3 = some st3 by decide))).1
    "X" sess3X (by decide)

/-! ### Claim C9 -/

/-- Claim C9: in every reachable state every session holds at most one live
recurring timer - any live interval handle bound to a session's code is the
single handle recorded in the session's `timer` field - and re-initiating a
shuffle cycle for a session cancels its outstanding recurring timer: the old
handle is no longer live afterwards. -/
theorem c9_single_recurring_timer {st : ServerState} (h : Reachable st) :
    (∀ code sess tA tB, objGet code st.sessions = some sess →
       (tA, code) ∈ st.intervals → (tB, code) ∈ st.intervals →
       tA = tB ∧ sess.timer = some tA) ∧
    (∀ code sess t js, objGet code st.sessions = some sess →
       sess.timer = some t →
       (t, code) ∉ (initiateShuffleCycle st code js).1.intervals) := by
  obtain ⟨hk, ⟨t1, t2, t3, t4⟩, hct⟩ := reachable_GInv h
  constructor
  · intro code sess tA tB hs hA hB
    have hA' : sess.timer = some tA := by
      rcases t2 (tA, code) hA with ⟨sess2, hs2, ht2⟩
      rw [hs] at hs2
      injection hs2 with hs2
      rw [← hs2] at ht2
      exact ht2
    have hB' : sess.timer = some tB := by
      rcases t2 (tB, code) hB with ⟨sess2, hs2, ht2⟩
      rw [hs] at hs2
      injection hs2 with hs2
      rw [← hs2] at ht2
      exact ht2
    rw [hA'] at hB'
    injection hB' with hB'
    exact ⟨hB', hA'⟩
  · intro code sess t js hs ht
    have htmem : (t, code) ∈ st.intervals := t1 (code, sess) (objGet_eq_some_mem hs) t ht
    have htlt : t < st.nextTimer := t4 (t, code) htmem
    have hinit : (initiateShuffleCycle st code js).1 =
        startTimer (performShuffle (clearTimer st code) code js).1 code := by
      unfold initiateShuffleCycle
      rw [hs]
    have hivA : (clearTimer st code).intervals =
        st.intervals.filter (fun p => p.1 != t) := by
      rw [clearTimer_intervals hs, ht]
    have hA_get : objGet code (clearTimer st code).sessions =
        some { sess with timer := none } := by
      rw [clearTimer_sessions hs]
      exact objGet_objSet_self _ _ _
    have hB_get : objGet code (performShuffle (clearTimer st code) code js).1.sessions =
        some { sess with
          links := mkLinks (fisherYates (sess.participants.map Prod.fst) js),
          timer := none } := by
      rw [performShuffle_sessions_eq js hA_get]
      exact objGet_objSet_self _ _ _
    have hivB : (performShuffle (clearTimer st code) code js).1.intervals =
        st.intervals.filter (fun p => p.1 != t) := by
      rw [performShuffle_intervals, hivA]
    have hntB : (performShuffle (clearTimer st code) code js).1.nextTimer =
        st.nextTimer := by
      rw [performShuffle_nextTimer, clearTimer_nextTimer]
    rw [hinit]
    by_cases hgt : 2 < sess.participants.length
    · rw [startTimer_of_gt hB_get hgt]
      intro hmem
      rcases List.mem_cons.1 hmem with heq | hmem'
      · have : t = (performShuffle (clearTimer st code) code js).1.nextTimer := by
          injection heq with h1 h2
        rw [hntB] at this
        omega
      · rw [hivB] at hmem'
        have := (List.mem_filter.1 hmem').2
        simp at this
    · rw [startTimer_of_le hB_get hgt]
      intro hmem
      rw [hivB] at hmem
      have := (List.mem_filter.1 hmem).2
      simp at this

/-- Claim C9 witness: in the reachable state `st3` the session "X" holds
exactly the live handle 0, and re-initiating its cycle cancels it. -/
theorem c9_witness :
    (0 = 0 ∧ sess3X.timer = some 0) ∧
    (0, "X") ∉ (initiateShuffleCycle st3 "X" [0, 1]).1.intervals :=
  ⟨(c9_single_recurring_timer
        (reachable_runEvents (show runEvents trace3 = some st3 by decide))).1
      "X" sess3X 0 0 (by decide) (by decide) (by decide),
   (c9_single_recurring_timer
        (reachable_runEvents (show runEvents trace3 = some st3 by decide))).2
      "X" sess3X 0 [0, 1] (by decide) (by decide)⟩

/-! ### Claim C7 -/

/-- Claim C7 counterexample: after the last participant of session "X" leaves
(`traceTeardown`), the session is removed and its recurring interval is
cancelled - but the delayed-shuffle timeout scheduled by the interval's last
firing survives.  When two fresh connections re-create "X" under the same
code (`traceRejoin`), the stale timer callback fires and produces shuffle
messages, so a subsequently firing timer callback for that session code does
produce messages and change state, contrary to the claim. -/
theorem c7_counterexample :
    ((runEvents traceTeardown).map (fun st =>
        decide (objGet "X" st.sessions = none ∧ st.intervals = [] ∧
          st.timeouts = [(1, "X")]))) = some true ∧
    ((runEvents traceRejoin).map (fun st =>
        (objGet "X" st.sessions).isSome)) = some true ∧
    ((runEvents traceRejoin).bind (fun st =>
        (step st (Event.timeoutFire 1 [])).map (fun r => decide (r.2 = [])))) =
      some false := by
  decide

/-- Claim C7 (amended): in every reachable state - (i) when the close handler
removes a participant that was the sole member of its session, the session is
deleted from the table, no live recurring interval for its code remains, and
no message is emitted; (ii) every live recurring interval's session exists
(no recurring timer outlives its session); (iii) firing a pending
delayed-shuffle timeout whose session code is absent from the table leaves
the sessions, intervals and connections unchanged and produces no messages
(only the fired timeout handle itself is consumed); (iv) firing a cancelled
interval handle is a strict no-op.  A pending delayed-shuffle timeout is,
however, not cancelled by teardown and will act on a session re-created under
the same code (see the counterexample). -/
theorem c7_teardown {st : ServerState} (h : Reachable st) :
    (∀ cid p cs js st' out,
       connOpen st cid = true →
       closeFind cid (closeConns st cid).sessions = some cs →
       cs.2.participants = [(cid, p)] →
       step st (Event.closeEv cid js) = some (st', out) →
       objGet cs.1 st'.sessions = none ∧ (∀ q ∈ st'.intervals, q.2 ≠ cs.1) ∧
         out = []) ∧
    (∀ q ∈ st.intervals, (objGet q.2 st.sessions).isSome = true) ∧
    (∀ tid code js, objGet tid st.timeouts = some code →
       objGet code st.sessions = none →
       (timeoutFireOp st tid js).1.sessions = st.sessions ∧
       (timeoutFireOp st tid js).1.intervals = st.intervals ∧
       (timeoutFireOp st tid js).1.conns = st.conns ∧
       (timeoutFireOp st tid js).2 = []) ∧
    (∀ tid, objGet tid st.intervals = none → intervalFireOp st tid = (st, [])) := by
  obtain ⟨hk, ⟨t1, t2, t3, t4⟩, hct⟩ := reachable_GInv h
  refine ⟨?_, ?_, ?_, ?_⟩
  · intro cid p cs js st' out hc hf hsole hstep
    simp only [step] at hstep
    rw [if_pos hc] at hstep
    simp only [Option.some.injEq] at hstep
    have hdel : objDel cid cs.2.participants = [] := by
      rw [hsole]
      simp [objDel]
    have hz : (objDel cid cs.2.participants).length = 0 := by
      rw [hdel]
      rfl
    have hco : closeOp st cid js = (closeTeardown st cid cs, []) := by
      unfold closeOp
      rw [hf]
      show (if (objDel cid cs.2.participants).length = 0 then
          (closeTeardown st cid cs, ([] : List (String × OutMsg)))
        else
          if 1 < (objDel cid cs.2.participants).length then
            ((initiateShuffleCycle (closeShrunk st cid cs) cs.1 js).1,
             closeBroadcast st cid cs ++
               (initiateShuffleCycle (closeShrunk st cid cs) cs.1 js).2)
          else (closeShrunk st cid cs, closeBroadcast st cid cs)) = _
      rw [if_pos hz]
    rw [hco] at hstep
    have hst' : st' = closeTeardown st cid cs := (congrArg Prod.fst hstep).symm
    have hout : out = [] := (congrArg Prod.snd hstep).symm
    rw [closeConns_sessions] at hf
    have hget_cs : objGet cs.1 st.sessions = some cs.2 := closeFind_objGet hk.1 hf
    have htd_sess : (closeTeardown st cid cs).sessions = objDel cs.1 st.sessions := by
      unfold closeTeardown
      rw [closeConns_sessions]
    have htd_iv : (closeTeardown st cid cs).intervals =
        match cs.2.timer with
        | some t => st.intervals.filter (fun r => r.1 != t)
        | none => st.intervals := by
      unfold closeTeardown
      rw [closeConns_intervals]
    refine ⟨?_, ?_, hout⟩
    · rw [hst', htd_sess]
      exact objGet_objDel_self hk.1
    · intro q hq hqc
      rw [hst', htd_iv] at hq
      cases ht : cs.2.timer with
      | none =>
        have hq' : q ∈ st.intervals := by
          rw [ht] at hq
          exact hq
        rcases t2 q hq' with ⟨sess2, hs2, ht2⟩
        rw [hqc, hget_cs] at hs2
        injection hs2 with hs2
        rw [← hs2] at ht2
        rw [ht] at ht2
        exact absurd ht2 (by simp)
      | some t =>
        have hq' : q ∈ st.intervals.filter (fun r => r.1 != t) := by
          rw [ht] at hq
          exact hq
        have hqin := (List.mem_filter.1 hq').1
        have hqne : q.1 ≠ t := by simpa using (List.mem_filter.1 hq').2
        rcases t2 q hqin with ⟨sess2, hs2, ht2⟩
        rw [hqc, hget_cs] at hs2
        injection hs2 with hs2
        rw [← hs2] at ht2
        rw [ht] at ht2
        injection ht2 with ht2
        exact absurd ht2.symm hqne
  · intro q hq
    rcases t2 q hq with ⟨sess2, hs2, _⟩
    rw [hs2]
    rfl
  · intro tid code js hto habs
    have hps : performShuffle
        { st with timeouts := st.timeouts.filter (fun p => p.1 != tid) } code js =
        ({ st with timeouts := st.timeouts.filter (fun p => p.1 != tid) }, []) := by
      unfold performShuffle
      rw [show objGet code ({ st with
          timeouts := st.timeouts.filter (fun p => p.1 != tid) } : ServerState).sessions =
        none from habs]
    have hgoal : timeoutFireOp st tid js =
        performShuffle
          { st with timeouts := st.timeouts.filter (fun p => p.1 != tid) } code js := by
      unfold timeoutFireOp
      rw [hto]
    rw [hgoal, hps]
    exact ⟨rfl, rfl, rfl, rfl⟩
  · intro tid hg
    unfold intervalFireOp
    rw [hg]

/-- Claim C7 witness: the reachable state `stSolo` whose session "X" holds
the sole participant "a"; closing "a" deletes "X", leaves no interval for it,
and emits nothing. -/
theorem c7_witness :
    (connOpen stSolo "a" = true ∧
     closeFind "a" (closeConns stSolo "a").sessions = some ("X", sessSolo) ∧
     sessSolo.participants = [("a", { name := some "na", socket := "a" })] ∧
     step stSolo (Event.closeEv "a" []) = some (stEmpty, [])) ∧
    (objGet ("X", sessSolo).1 stEmpty.sessions = none ∧
     (∀ q ∈ stEmpty.intervals, q.2 ≠ ("X", sessSolo).1) ∧
     ([] : List (String × OutMsg)) = []) :=
  ⟨⟨by decide, by decide, by decide, by decide⟩,
   (c7_teardown (reachable_runEvents
        (show runEvents traceSolo = some stSolo by decide))).1
     "a" { name := some "na", socket := "a" } ("X", sessSolo) [] stEmpty []
     (by decide) (by decide) (by decide) (by decide)⟩

/-! ### Membership-invariant machinery for claim C8 -/

theorem initiate_shape {st : ServerState} {code : String} {sess : Session}
    (js : List Nat) (hs : objGet code st.sessions = some sess) :
    (∃ sess1, objGet code (initiateShuffleCycle st code js).1.sessions = some sess1 ∧
       sess1.participants = sess.participants) ∧
    (∀ c, c ≠ code →
       objGet c (initiateShuffleCycle st code js).1.sessions = objGet c st.sessions) ∧
    (initiateShuffleCycle st code js).1.conns = st.conns := by
  have hinit : (initiateShuffleCycle st code js).1 =
      startTimer (performShuffle (clearTimer st code) code js).1 code := by
    unfold initiateShuffleCycle
    rw [hs]
  rw [hinit]
  obtain ⟨sessA, hA_sess, hAparts⟩ :
      ∃ sessA, (clearTimer st code).sessions = objSet code sessA st.sessions ∧
        sessA.participants = sess.participants :=
    ⟨_, clearTimer_sessions hs, rfl⟩
  have hA_get : objGet code (clearTimer st code).sessions = some sessA := by
    rw [hA_sess]
    exact objGet_objSet_self _ _ _
  obtain ⟨sessB, hB_sess, hBparts⟩ :
      ∃ sessB, (performShuffle (clearTimer st code) code js).1.sessions =
          objSet code sessB (clearTimer st code).sessions ∧
        sessB.participants = sess.participants :=
    ⟨_, performShuffle_sessions_eq js hA_get, hAparts⟩
  have hB_get : objGet code (performShuffle (clearTimer st code) code js).1.sessions =
      some sessB := by
    rw [hB_sess]
    exact objGet_objSet_self _ _ _
  have hB_ne : ∀ c, c ≠ code →
      objGet c (performShuffle (clearTimer st code) code js).1.sessions =
        objGet c st.sessions := by
    intro c hc
    rw [hB_sess, objGet_objSet_ne _ _ hc, hA_sess, objGet_objSet_ne _ _ hc]
  have hB_conns : (performShuffle (clearTimer st code) code js).1.conns = st.conns := by
    rw [performShuffle_conns, clearTimer_conns]
  by_cases hgt : 2 < sessB.participants.length
  · rw [startTimer_of_gt hB_get hgt]
    refine ⟨⟨_, objGet_objSet_self _ _ _, hBparts⟩, ?_, hB_conns⟩
    intro c hc
    exact (objGet_objSet_ne _ _ hc).trans (hB_ne c hc)
  · rw [startTimer_of_le hB_get hgt]
    exact ⟨⟨sessB, hB_get, hBparts⟩, hB_ne, hB_conns⟩

theorem beq_none_eq {o : Option String} (h : (o == none) = true) : o = none := by
  cases o with
  | none => rfl
  | some s =>
    have hh : (false : Bool) = true := h
    exact Bool.noConfusion hh

theorem MemberInv_initiate {st : ServerState} {code : String} {sess : Session}
    (js : List Nat) (hs : objGet code st.sessions = some sess)
    (h : MemberInv st) : MemberInv (initiateShuffleCycle st code js).1 := by
  obtain ⟨⟨sess2, hget2, hparts2⟩, hne2, hconns2⟩ := initiate_shape js hs
  intro code1 sess1 pid p hsess1 hpart1
  rw [hconns2]
  by_cases hck : code1 = code
  · subst hck
    rw [hget2] at hsess1
    injection hsess1 with hsess1
    rw [← hsess1] at hpart1
    rw [hparts2] at hpart1
    exact h code1 sess pid p hs hpart1
  · rw [hne2 code1 hck] at hsess1
    exact h code1 sess1 pid p hsess1 hpart1

theorem MemberInv_performShuffle {st : ServerState} (code : String) (js : List Nat)
    (h : MemberInv st) : MemberInv (performShuffle st code js).1 := by
  cases hs : objGet code st.sessions with
  | none =>
    have he : (performShuffle st code js).1 = st := by
      unfold performShuffle
      rw [hs]
    rw [he]
    exact h
  | some sess =>
    have hsess := performShuffle_sessions_eq js hs
    intro code1 sess1 pid p hsess1 hpart1
    rw [performShuffle_conns]
    rw [hsess] at hsess1
    by_cases hck : code1 = code
    · subst hck
      rw [objGet_objSet_self] at hsess1
      injection hsess1 with hsess1
      rw [← hsess1] at hpart1
      have hpart2 : objGet pid sess.participants = some p := hpart1
      exact h code1 sess pid p hs hpart2
    · rw [objGet_objSet_ne _ _ hck] at hsess1
      exact h code1 sess1 pid p hsess1 hpart1

theorem MemberInv_connectOp {st : ServerState} (cid : String) (h : MemberInv st) :
    MemberInv (connectOp st cid) := by
  cases hg : objGet cid st.conns with
  | some c0 =>
    have he : connectOp st cid = st := by
      unfold connectOp
      rw [hg]
    rw [he]
    exact h
  | none =>
    have hcc : (connectOp st cid).conns =
        objSet cid { sessionCode := none, isOpen := true } st.conns := by
      unfold connectOp
      rw [hg]
    intro code sess pid p hsess hpart
    rw [connectOp_sessions] at hsess
    obtain ⟨c, hc1, hc2, hc3⟩ := h code sess pid p hsess hpart
    have hne : pid ≠ cid := by
      intro hh
      rw [hh, hg] at hc1
      exact Option.noConfusion hc1
    refine ⟨c, ?_, hc2, hc3⟩
    rw [hcc, objGet_objSet_ne _ _ hne]
    exact hc1

theorem MemberInv_closeConns {st : ServerState} (cid : String) (h : MemberInv st) :
    MemberInv (closeConns st cid) := by
  cases hg : objGet cid st.conns with
  | none =>
    have hcc : (closeConns st cid).conns = st.conns := by
      show (match objGet cid st.conns with
            | some c1 => objSet cid { c1 with isOpen := false } st.conns
            | none => st.conns) = st.conns
      rw [hg]
    intro code sess pid p hsess hpart
    rw [closeConns_sessions] at hsess
    rw [hcc]
    exact h code sess pid p hsess hpart
  | some c0 =>
    have hcc : (closeConns st cid).conns =
        objSet cid { c0 with isOpen := false } st.conns := by
      show (match objGet cid st.conns with
            | some c1 => objSet cid { c1 with isOpen := false } st.conns
            | none => st.conns) = objSet cid { c0 with isOpen := false } st.conns
      rw [hg]
    intro code sess pid p hsess hpart
    rw [closeConns_sessions] at hsess
    rw [hcc]
    obtain ⟨c, hc1, hc2, hc3⟩ := h code sess pid p hsess hpart
    by_cases hpc : pid = cid
    · subst hpc
      rw [hg] at hc1
      injection hc1 with hc1
      refine ⟨{ c0 with isOpen := false }, objGet_objSet_self _ _ _, ?_, hc3⟩
      show c0.sessionCode = some code
      rw [hc1]
      exact hc2
    · refine ⟨c, ?_, hc2, hc3⟩
      rw [objGet_objSet_ne _ _ hpc]
      exact hc1

theorem MemberInv_joinOp {st : ServerState} (cid code0 : String)
    (nameOpt : Option String) (js : List Nat) (h : MemberInv st)
    (hc : connOpen st cid = true)
    (hnone : (objGet cid st.conns).bind Conn.sessionCode = none) :
    MemberInv (joinOp st cid (some code0) nameOpt js).1 := by
  obtain ⟨c, hcget⟩ : ∃ c, objGet cid st.conns = some c := by
    cases hg : objGet cid st.conns with
    | none =>
      unfold connOpen at hc
      rw [hg] at hc
      exact absurd hc (by simp)
    | some c => exact ⟨c, rfl⟩
  have hcnone : c.sessionCode = none := by
    rw [hcget] at hnone
    exact hnone
  have hnotin : ∀ code sess p, objGet code st.sessions = some sess →
      objGet cid sess.participants = some p → False := by
    intro code sess p hsess hpart
    obtain ⟨c2, hc1, hc2, _⟩ := h code sess cid p hsess hpart
    rw [hcget] at hc1
    injection hc1 with hc1
    rw [← hc1, hcnone] at hc2
    exact Option.noConfusion hc2
  have hregs : (joinRegister st cid (some code0) nameOpt).sessions =
      objSet code0 (joinSess1 st code0 cid nameOpt) st.sessions := rfl
  have hregc : (joinRegister st cid (some code0) nameOpt).conns =
      objSet cid { c with sessionCode := some code0 } st.conns := by
    show (match objGet cid st.conns with
          | some c1 => objSet cid { c1 with sessionCode := some code0 } st.conns
          | none => st.conns) =
      objSet cid { c with sessionCode := some code0 } st.conns
    rw [hcget]
  have hreg : MemberInv (joinRegister st cid (some code0) nameOpt) := by
    intro code sess pid p hsess hpart
    rw [hregs] at hsess
    rw [hregc]
    by_cases hck : code = code0
    · subst hck
      rw [objGet_objSet_self] at hsess
      injection hsess with hsess
      rw [← hsess] at hpart
      by_cases hpid : pid = cid
      · subst hpid
        have hj1 : objGet pid (joinSess1 st code pid nameOpt).participants =
            some { name := nameOpt, socket := pid } := by
          unfold joinSess1
          exact objGet_objSet_self _ _ _
        rw [hj1] at hpart
        injection hpart with hpart
        subst hpart
        exact ⟨{ c with sessionCode := some code }, objGet_objSet_self _ _ _,
          rfl, rfl⟩
      · have hj2 : objGet pid (joinSess1 st code cid nameOpt).participants =
            objGet pid ((objGet code st.sessions).getD
              { participants := [], links := [], timer := none }).participants := by
          unfold joinSess1
          exact objGet_objSet_ne _ _ hpid
        rw [hj2] at hpart
        cases hg0 : objGet code st.sessions with
        | none =>
          rw [hg0] at hpart
          have hpart2 : (none : Option Participant) = some p := hpart
          exact Option.noConfusion hpart2
        | some s0 =>
          rw [hg0] at hpart
          have hpart2 : objGet pid s0.participants = some p := hpart
          obtain ⟨c2, hc1, hc2, hc3⟩ := h code s0 pid p hg0 hpart2
          refine ⟨c2, ?_, hc2, hc3⟩
          rw [objGet_objSet_ne _ _ hpid]
          exact hc1
    · rw [objGet_objSet_ne _ _ hck] at hsess
      by_cases hpid : pid = cid
      · subst hpid
        exact (hnotin code sess p hsess hpart).elim
      · obtain ⟨c2, hc1, hc2, hc3⟩ := h code sess pid p hsess hpart
        refine ⟨c2, ?_, hc2, hc3⟩
        rw [objGet_objSet_ne _ _ hpid]
        exact hc1
  by_cases hcnt :
      2 ≤ (joinSess1 st (jsKey (some code0)) cid nameOpt).participants.length
  · have hj : (joinOp st cid (some code0) nameOpt js).1 =
        (initiateShuffleCycle (joinRegister st cid (some code0) nameOpt)
          (jsKey (some code0)) js).1 := by
      unfold joinOp
      rw [if_pos hcnt]
    rw [hj]
    have hgetreg : objGet code0 (joinRegister st cid (some code0) nameOpt).sessions =
        some (joinSess1 st code0 cid nameOpt) := by
      rw [hregs]
      exact objGet_objSet_self _ _ _
    exact MemberInv_initiate js hgetreg hreg
  · have hj : (joinOp st cid (some code0) nameOpt js).1 =
        joinRegister st cid (some code0) nameOpt := by
      unfold joinOp
      rw [if_neg hcnt]
    rw [hj]
    exact hreg

theorem MemberInv_closeOp {st : ServerState} (cid : String) (js : List Nat)
    (hk : sessKeysNodup st.sessions) (h : MemberInv st) :
    MemberInv (closeOp st cid js).1 := by
  have hcc := MemberInv_closeConns cid h
  unfold closeOp
  cases hf : closeFind cid (closeConns st cid).sessions with
  | none => exact hcc
  | some cs =>
    show MemberInv (if (objDel cid cs.2.participants).length = 0 then
        (closeTeardown st cid cs, ([] : List (String × OutMsg)))
      else
        if 1 < (objDel cid cs.2.participants).length then
          ((initiateShuffleCycle (closeShrunk st cid cs) cs.1 js).1,
           closeBroadcast st cid cs ++
             (initiateShuffleCycle (closeShrunk st cid cs) cs.1 js).2)
        else (closeShrunk st cid cs, closeBroadcast st cid cs)).1
    rw [closeConns_sessions] at hf
    have hmem_cs := closeFind_mem hf
    have hget_cs : objGet cs.1 st.sessions = some cs.2 := closeFind_objGet hk.1 hf
    have hnd_parts : (cs.2.participants.map Prod.fst).Nodup := hk.2 cs hmem_cs.1
    have hsh_sess : (closeShrunk st cid cs).sessions =
        objSet cs.1 { cs.2 with participants := objDel cid cs.2.participants }
          st.sessions := by
      unfold closeShrunk
      rw [closeConns_sessions]
    have hshr : MemberInv (closeShrunk st cid cs) := by
      intro code sess pid p hsess hpart
      rw [hsh_sess] at hsess
      by_cases hck : code = cs.1
      · subst hck
        rw [objGet_objSet_self] at hsess
        injection hsess with hsess
        rw [← hsess] at hpart
        have hpart2 : objGet pid (objDel cid cs.2.participants) = some p := hpart
        have hpid : pid ≠ cid := by
          intro hh
          rw [hh, objGet_objDel_self hnd_parts] at hpart2
          exact Option.noConfusion hpart2
        rw [objGet_objDel_ne _ hpid] at hpart2
        have hget_cc : objGet cs.1 (closeConns st cid).sessions = some cs.2 := by
          rw [closeConns_sessions]
          exact hget_cs
        obtain ⟨c, hc1, hc2, hc3⟩ := hcc cs.1 cs.2 pid p hget_cc hpart2
        exact ⟨c, hc1, hc2, hc3⟩
      · rw [objGet_objSet_ne _ _ hck] at hsess
        have hsess2 : objGet code (closeConns st cid).sessions = some sess := by
          rw [closeConns_sessions]
          exact hsess
        obtain ⟨c, hc1, hc2, hc3⟩ := hcc code sess pid p hsess2 hpart
        exact ⟨c, hc1, hc2, hc3⟩
    by_cases hz : (objDel cid cs.2.participants).length = 0
    · rw [if_pos hz]
      show MemberInv (closeTeardown st cid cs)
      intro code sess pid p hsess hpart
      have htd_sess : (closeTeardown st cid cs).sessions =
          objDel cs.1 st.sessions := by
        unfold closeTeardown
        rw [closeConns_sessions]
      rw [htd_sess] at hsess
      have hcode : code ≠ cs.1 := by
        intro hh
        rw [hh, objGet_objDel_self hk.1] at hsess
        exact Option.noConfusion hsess
      rw [objGet_objDel_ne _ hcode] at hsess
      have hsess2 : objGet code (closeConns st cid).sessions = some sess := by
        rw [closeConns_sessions]
        exact hsess
      obtain ⟨c, hc1, hc2, hc3⟩ := hcc code sess pid p hsess2 hpart
      exact ⟨c, hc1, hc2, hc3⟩
    · rw [if_neg hz]
      by_cases h1 : 1 < (objDel cid cs.2.participants).length
      · rw [if_pos h1]
        show MemberInv (initiateShuffleCycle (closeShrunk st cid cs) cs.1 js).1
        have hget_sh : objGet cs.1 (closeShrunk st cid cs).sessions =
            some { cs.2 with participants := objDel cid cs.2.participants } := by
          rw [hsh_sess]
          exact objGet_objSet_self _ _ _
        exact MemberInv_initiate js hget_sh hshr
      · rw [if_neg h1]
        exact hshr

theorem MemberInv_intervalFireOp {st : ServerState} (tid : Nat)
    (h : MemberInv st) : MemberInv (intervalFireOp st tid).1 := by
  unfold intervalFireOp
  cases hg : objGet tid st.intervals with
  | none => exact h
  | some code =>
    intro code1 sess1 pid p hsess1 hpart1
    exact h code1 sess1 pid p hsess1 hpart1

theorem MemberInv_timeoutFireOp {st : ServerState} (tid : Nat) (js : List Nat)
    (h : MemberInv st) : MemberInv (timeoutFireOp st tid js).1 := by
  unfold timeoutFireOp
  cases hg : objGet tid st.timeouts with
  | none => exact h
  | some code =>
    refine MemberInv_performShuffle code js ?_
    intro code1 sess1 pid p hsess1 hpart1
    exact h code1 sess1 pid p hsess1 hpart1

theorem stepW_MemberInv {st : ServerState} {e : Event} {st' : ServerState}
    {out : List (String × OutMsg)} (hk : sessKeysNodup st.sessions)
    (h : MemberInv st) (hg : goodEventB st e = true)
    (hs : step st e = some (st', out)) : MemberInv st' := by
  cases e with
  | connect cid =>
    simp only [step, Option.some.injEq, Prod.mk.injEq] at hs
    rw [← hs.1]
    exact MemberInv_connectOp cid h
  | message cid raw js =>
    simp only [step] at hs
    by_cases hc : connOpen st cid = true
    · rw [if_pos hc] at hs
      cases raw with
      | none => simp [handleMessage] at hs
      | some msg =>
        cases msg with
        | joinSession pl0 =>
          cases pl0 with
          | none => simp [handleMessage] at hs
          | some pl =>
            simp only [goodEventB, Bool.and_eq_true] at hg
            obtain ⟨⟨hcode, _⟩, hnone⟩ := hg
            cases hsc : pl.sessionCode with
            | none =>
              rw [hsc] at hcode
              exact absurd hcode (by simp)
            | some code0 =>
              simp only [handleMessage, Option.some.injEq] at hs
              have h1 : (joinOp st cid pl.sessionCode pl.participantName js).1 = st' := by
                rw [hs]
              rw [← h1, hsc]
              exact MemberInv_joinOp cid code0 pl.participantName js h hc
                (beq_none_eq hnone)
        | webrtcSignal pl0 =>
          cases pl0 with
          | none => simp [handleMessage] at hs
          | some pl =>
            simp only [handleMessage, Option.some.injEq] at hs
            have h1 : (relayOp st cid pl.toId pl.signal).1 = st' := by
              rw [hs]
            rw [← h1, relayOp_state]
            exact h
        | other ty =>
          simp only [handleMessage, Option.some.injEq, Prod.mk.injEq] at hs
          rw [← hs.1]
          exact h
    · rw [if_neg hc] at hs
      simp only [Option.some.injEq, Prod.mk.injEq] at hs
      rw [← hs.1]
      exact h
  | closeEv cid js =>
    simp only [step] at hs
    by_cases hc : connOpen st cid = true
    · rw [if_pos hc] at hs
      simp only [Option.some.injEq] at hs
      have h1 : (closeOp st cid js).1 = st' := by rw [hs]
      rw [← h1]
      exact MemberInv_closeOp cid js hk h
    · rw [if_neg hc] at hs
      simp only [Option.some.injEq, Prod.mk.injEq] at hs
      rw [← hs.1]
      exact h
  | intervalFire tid =>
    simp only [step, Option.some.injEq] at hs
    have h1 : (intervalFireOp st tid).1 = st' := by rw [hs]
    rw [← h1]
    exact MemberInv_intervalFireOp tid h
  | timeoutFire tid js =>
    simp only [step, Option.some.injEq] at hs
    have h1 : (timeoutFireOp st tid js).1 = st' := by rw [hs]
    rw [← h1]
    exact MemberInv_timeoutFireOp tid js h

theorem reachableW_reachable {st : ServerState} (h : ReachableW st) :
    Reachable st := by
  induction h with
  | init => exact Reachable.init
  | next hr hgd hstep ih => exact Reachable.next ih hstep

theorem reachableW_MemberInv {st : ServerState} (h : ReachableW st) :
    MemberInv st := by
  induction h with
  | init =>
    intro code sess pid p hsess hpart
    have hsess2 : (none : Option Session) = some sess := hsess
    exact Option.noConfusion hsess2
  | next hr hgd hstep ih =>
    exact stepW_MemberInv (reachable_GInv (reachableW_reachable hr)).1 ih hgd hstep

theorem reachableW_of_runFromChecked :
    ∀ (evs : List Event) (st st2 : ServerState), ReachableW st →
      runFromChecked st evs = some st2 → ReachableW st2 := by
  intro evs
  induction evs with
  | nil =>
    intro st st2 hr hrun
    have hrun2 : some st = some st2 := hrun
    injection hrun2 with hrun2
    rw [← hrun2]
    exact hr
  | cons e rest ih =>
    intro st st2 hr hrun
    simp only [runFromChecked] at hrun
    by_cases hgd : goodEventB st e = true
    · rw [if_pos hgd] at hrun
      cases hstep : step st e with
      | none =>
        rw [hstep] at hrun
        have hrun2 : (none : Option ServerState) = some st2 := hrun
        exact Option.noConfusion hrun2
      | some r =>
        rw [hstep] at hrun
        have hrun2 : runFromChecked r.1 rest = some st2 := hrun
        exact ih r.1 st2 (ReachableW.next hr hgd hstep) hrun2
    · rw [if_neg hgd] at hrun
      exact Option.noConfusion hrun

/-! ### Claim C8 -/

/-- Claim C8 counterexample: nothing stops a connection from sending a second
`joinSession` with a different code - after `traceDoubleJoin` the participant
id "a" is a key in the participant maps of both session "s1" and session
"s2", while its connection records only "s2"; so a participant identity can
belong to two sessions at once and the recorded code cannot match both. -/
theorem c8_counterexample :
    ((runEvents traceDoubleJoin).map (fun st => decide (
        ((objGet "s1" st.sessions).map
          (fun s => (objGet "a" s.participants).isSome)) = some true ∧
        ((objGet "s2" st.sessions).map
          (fun s => (objGet "a" s.participants).isSome)) = some true ∧
        ("s1" : String) ≠ "s2" ∧
        ((objGet "a" st.conns).map Conn.sessionCode) = some (some "s2")))) =
      some true := by
  decide

/-- Claim C8 (amended): in the restricted transition system `ReachableW`,
where every join carries both payload fields and comes from a connection
whose recorded session code is still unset (each connection joins at most
once), every reachable state satisfies the membership invariant: every
participant key of every session is the id of a connection whose recorded
session code is that session's code, the participant's stored socket is its
own key, and the participant id occurs in no other session of the table. -/
theorem c8_membership_consistent {st : ServerState} (h : ReachableW st) :
    ∀ code sess pid p, objGet code st.sessions = some sess →
      objGet pid sess.participants = some p →
      (∃ c, objGet pid st.conns = some c ∧ c.sessionCode = some code ∧
         p.socket = pid) ∧
      (∀ code2 sess2, objGet code2 st.sessions = some sess2 →
         (objGet pid sess2.participants).isSome = true → code2 = code) := by
  have hmi := reachableW_MemberInv h
  intro code sess pid p hsess hpart
  refine ⟨hmi code sess pid p hsess hpart, ?_⟩
  intro code2 sess2 hsess2 hpart2
  obtain ⟨c, hc1, hc2, _⟩ := hmi code sess pid p hsess hpart
  cases hp2 : objGet pid sess2.participants with
  | none =>
    rw [hp2] at hpart2
    exact absurd hpart2 (by simp)
  | some p2 =>
    obtain ⟨c2, hc1b, hc2b, _⟩ := hmi code2 sess2 pid p2 hsess2 hp2
    rw [hc1] at hc1b
    injection hc1b with hc1b
    rw [← hc1b] at hc2b
    rw [hc2] at hc2b
    injection hc2b with hc2b
    exact hc2b.symm

/-- Witness for claim C8: a concrete well-formed run - two connections
joining session "X" - reaches `stW`, where the invariant is instantiated at
participant "a" of session "X". -/
theorem c8_witness :
    runFromChecked initState traceW = some stW ∧
    objGet "X" stW.sessions = some sessWX ∧
    objGet "a" sessWX.participants = some pWa ∧
    ((∃ c, objGet "a" stW.conns = some c ∧ c.sessionCode = some "X" ∧
        pWa.socket = "a") ∧
     (∀ code2 sess2, objGet code2 stW.sessions = some sess2 →
        (objGet "a" sess2.participants).isSome = true → code2 = "X")) := by
  refine ⟨by decide, by decide, by decide, ?_⟩
  exact c8_membership_consistent
    (reachableW_of_runFromChecked traceW initState stW ReachableW.init (by decide))
    "X" sessWX "a" pWa (by decide) (by decide)

end VideoShuffle
